import Mathlib

/-!
Verification of the Meetings signaling Hub (backend ws package) and SFU engine
(sfu-server/main.go) against the natural-language specification.

The Go code is shallowly embedded:
  - Go maps become association lists (first-match lookup; insertion replaces
    every binding of the key, so maps built by these operations have unique
    keys, matching Go map semantics).
  - each Hub event-loop case and each SFU handler becomes a pure step function
    from state to state plus a list of observable outputs (messages enqueued
    into a client outbound channel, messages to the SFU, queue closures,
    evictions).
  - Go channel sends are modelled by their enqueue discipline: a bare
    "ch <- v" is a blocking send, a "select ... default" is a non-blocking
    try-send; the discipline is recorded on each delivery output.
-/

namespace Meetings

/-- Go map lookup on an association list: first binding of the key. -/
def alookup {κ α : Type} [DecidableEq κ] (k : κ) : List (κ × α) → Option α
  | [] => none
  | p :: rest => if p.1 = k then some p.2 else alookup k rest

/-- Remove every binding of a key (Go "delete(m, k)"). -/
def aerase {κ α : Type} [DecidableEq κ] (k : κ) : List (κ × α) → List (κ × α)
  | [] => []
  | p :: rest => if p.1 = k then aerase k rest else p :: aerase k rest

/-- Go map insert "m[k] = v": replace the first binding in place, drop any
further stale bindings of the same key, append if absent. -/
def aset {κ α : Type} [DecidableEq κ] (k : κ) (v : α) : List (κ × α) → List (κ × α)
  | [] => [(k, v)]
  | p :: rest => if p.1 = k then (k, v) :: aerase k rest else p :: aset k v rest

namespace SFU

/-- sfu-server/main.go indexOf, inner loop: scan positions i, i+1, ... of s
(represented as its remaining suffix) for the first occurrence of sub.
Mirrors "for i := 0; i <= len(s)-len(sub); i++ { if s[i:i+len(sub)] == sub
{ return i } }; return -1". -/
def indexOfAux (sub : List Char) : List Char → Nat → Int
  | [], i => if sub = [] then Int.ofNat i else -1
  | c :: rest, i =>
    if sub.length > (c :: rest).length then -1
    else if (c :: rest).take sub.length = sub then Int.ofNat i
    else indexOfAux sub rest (i + 1)

/-- sfu-server/main.go indexOf: "if sub == \x22\x22 { return 0 }" then the scan.
Go strings are modelled as their character lists. -/
def indexOf (s sub : List Char) : Int :=
  if sub = [] then 0 else indexOfAux sub s 0

/-- sfu-server/main.go stringContains:
"return len(sub) <= len(s) && (indexOf(s, sub) >= 0)". -/
def stringContains (s sub : String) : Bool :=
  decide (sub.data.length ≤ s.data.length) && decide (0 ≤ indexOf s.data sub.data)

/-- sfu-server/main.go containsPublisherID: empty strings never match, otherwise
equality or (for a strictly longer s) a substring scan. -/
def containsPublisherID (s publisherID : String) : Bool :=
  if s = "" || publisherID = "" then false
  else
    decide (s.data.length ≥ publisherID.data.length) &&
      (decide (s = publisherID) ||
        (decide (s.data.length > publisherID.data.length) && stringContains s publisherID))

/-- A local forwarded track: identity "remoteID-userID" for both the track ID
and the stream ID (webrtc.NewTrackLocalStaticRTP call in the OnTrack handler). -/
structure Track where
  trackId : String
  streamId : String
deriving DecidableEq, Repr

/-- An outbound RTP sender; s.Track() may be nil. -/
structure RTPSender where
  track : Option Track
deriving DecidableEq, Repr

/-- SFU-side per-user context: project, published forwarded tracks, outbound
senders, and whether PeerConnection.Close has been called on it. -/
structure PeerContext where
  projectID : String
  tracks : List Track
  senders : List RTPSender
  pcClosed : Bool
deriving DecidableEq, Repr

/-- The global userID -> PeerContext map. -/
abbrev PeerMap := List (String × PeerContext)

/-- Observable SFU outputs relevant to the claims: closing a replaced peer
connection, and the SDP offer (recorded with the set of forwarded tracks
already added to the new peer connection when the offer is created). -/
inductive SOut
  | closedOld (userId : String)
  | offer (target : String) (tracks : List Track)
deriving DecidableEq, Repr

/-- AddTrack failure oracle: the set of (receiver userID, track ID) pairs for
which pc.AddTrack fails (failures are logged and skipped in the source). -/
def addTrackFails (failSet : List (String × String)) (uid tid : String) : Bool :=
  decide ((uid, tid) ∈ failSet)

/-- Senders the new peer gets during connect-request catch-up: for every other
peer of the same project, every already-published forwarded track (AddTrack
failures skipped, loop continues). -/
def catchupSenders (failSet : List (String × String)) (peers : PeerMap)
    (userId projectId : String) : List RTPSender :=
  (peers.map fun p =>
    if p.1 = userId then []
    else if p.2.projectID ≠ projectId then []
    else p.2.tracks.filterMap fun t =>
      if addTrackFails failSet userId t.trackId then none
      else some { track := some t }).flatten

/-- sfu-server/main.go handleConnectRequest: close and evict any prior context
for the user, install a fresh context, catch up already-published tracks of
the same project, then create and emit the SDP offer (which therefore reflects
every track added so far). -/
def handleConnectRequest (failSet : List (String × String)) (peers : PeerMap)
    (userId projectId : String) : PeerMap × List SOut :=
  let prior := alookup userId peers
  let peers1 := match prior with
    | some _ => aerase userId peers
    | none => peers
  let outs1 : List SOut := match prior with
    | some _ => [SOut.closedOld userId]
    | none => []
  let ctx0 : PeerContext :=
    { projectID := projectId, tracks := [], senders := [], pcClosed := false }
  let peers2 := aset userId ctx0 peers1
  let catchup := catchupSenders failSet peers2 userId projectId
  let ctx1 := { ctx0 with senders := catchup }
  let peers3 := aset userId ctx1 peers2
  (peers3, outs1 ++ [SOut.offer userId (catchup.filterMap (·.track))])

/-- sfu-server/main.go OnTrack callback body (up to the RTP copy loop): build
the forwarded track with the publisher-embedding identity, record it under the
publisher's context if that context is still in the map, and add it as a
sender to every other peer of the same project (an AddTrack failure for one
peer is logged and does not abort fan-out to the rest). -/
def onTrack (failSet : List (String × String)) (peers : PeerMap)
    (userId projectId remoteId remoteStreamId : String) : PeerMap :=
  let localTrack : Track :=
    { trackId := remoteId ++ "-" ++ userId, streamId := remoteStreamId ++ "-" ++ userId }
  let peers1 := match alookup userId peers with
    | some pub => aset userId { pub with tracks := pub.tracks ++ [localTrack] } peers
    | none => peers
  peers1.map fun p =>
    if p.1 = userId then p
    else if p.2.projectID ≠ projectId then p
    else if addTrackFails failSet p.1 localTrack.trackId then p
    else (p.1, { p.2 with senders := p.2.senders ++ [{ track := some localTrack }] })

/-- Sender-retention test of removeAllPublisherTracks: a sender survives iff it
has no track or its track identity does not contain the publisher ID. -/
def keepSender (publisherID : String) (s : RTPSender) : Bool :=
  match s.track with
  | none => true
  | some t =>
    !(containsPublisherID t.trackId publisherID || containsPublisherID t.streamId publisherID)

/-- sfu-server/main.go removeAllPublisherTracks: for every peer, drop each
sender whose track ID or stream ID contains the publisher ID (RemoveTrack
errors are logged; the sender is dropped from the list either way). -/
def removeAllPublisherTracks (publisherID : String) (peers : PeerMap) : PeerMap :=
  peers.map fun p => (p.1, { p.2 with senders := p.2.senders.filter (keepSender publisherID) })

/-- sfu-server/main.go handleDisconnect: a missing context returns early with
no state change; otherwise the context is removed from the global map, its
peer connection closed, and the publisher's forwarded tracks removed from
every remaining peer. -/
def handleDisconnect (peers : PeerMap) (userId : String) : PeerMap :=
  match alookup userId peers with
  | none => peers
  | some _ => removeAllPublisherTracks userId (aerase userId peers)

/-! Concrete SFU states used as counterexamples and witnesses. -/

/-- A forwarded track published by user "uv" from remote track "t"/"s". -/
def trackUV : Track := { trackId := "t-uv", streamId := "s-uv" }

/-- A subscriber "w" currently receiving user "uv"'s forwarded track. -/
def ctxW : PeerContext :=
  { projectID := "p", tracks := [], senders := [{ track := some trackUV }], pcClosed := false }

/-- The publisher context of user "uv". -/
def ctxUV : PeerContext :=
  { projectID := "p", tracks := [trackUV], senders := [], pcClosed := false }

/-- A peer still holding a sender for departed user "a"'s forwarded track. -/
def ctxStaleB : PeerContext :=
  { projectID := "p", tracks := [],
    senders := [{ track := some { trackId := "t-a", streamId := "s-a" } }], pcClosed := false }

/-- A publisher "a" with one published forwarded track. -/
def ctxPubA : PeerContext :=
  { projectID := "p", tracks := [{ trackId := "ta-a", streamId := "sa-a" }], senders := [],
    pcClosed := false }

end SFU

namespace WS

/-- Hub-side client: identity fields of ws.Client. cid models the Go pointer
identity of the *Client instance; sendCap is the capacity of its Send channel
(256 in ServeWs, kept parametric here). -/
structure Client where
  cid : Nat
  userID : String
  username : String
  projectID : String
  sendCap : Nat
deriving DecidableEq, Repr

/-- State of one client's outbound Send channel: number of queued messages
not yet drained by its writer, its capacity, and whether it has been closed. -/
structure SendQ where
  pending : Nat
  cap : Nat
  closed : Bool
deriving DecidableEq, Repr

/-- Parsed form of the wire messages the Hub forwards or constructs. Raw
forwarded bytes are represented by re-emitting the parsed message. -/
inductive WireMsg
  | offer (target sender data : String)
  | ice (target sender data : String)
  | other (target sender data : String)
  | presence (users : List (String × String))
  | disconnectNote (userId : String)
  | connectReq (userId projectId : String)
  | answerToSFU (sender data : String)
  | iceToSFU (sender data : String)
  | generic (data : String)
deriving DecidableEq, Repr

/-- Enqueue discipline of a delivery, read off the source syntax: a bare
channel send is blocking; a select with a default branch is a try-send
(tryRoom in the generic fan-out, tryPresence in broadcastPresence). -/
inductive Mode
  | blocking
  | tryRoom
  | tryPresence
deriving DecidableEq, Repr

/-- Observable Hub outputs. send uid cid msg mode: msg enqueued into the Send
channel of the client found under key uid (cid is that client's identity). -/
inductive Out
  | send (uid : String) (cid : Nat) (msg : WireMsg) (mode : Mode)
  | sendSFU (msg : WireMsg)
  | presenceDrop (uid : String) (cid : Nat)
  | evict (uid : String) (cid : Nat)
  | closeQueue (cid : Nat)
  | closeConn (cid : Nat)
deriving DecidableEq, Repr

/-- ws.ICEBuffer: buffered candidates, optional buffered offer, and the two
direction flags. The Go "len(PendingOffer) > 0" test is modelled by Option. -/
structure ICEBuffer where
  candidates : List String
  pendingOffer : Option WireMsg
  offerSent : Bool
  answerSent : Bool
deriving DecidableEq, Repr

/-- The zero buffer installed by ensureICEBuffer. -/
def ICEBuffer.fresh : ICEBuffer :=
  { candidates := [], pendingOffer := none, offerSent := false, answerSent := false }

/-- ws.Hub state: Clients (projectID -> userID -> Client), UserMap, the SFU
connection, iceBuffers, plus the modelled Send-queue state per client cid.
ProjectStates (editor/whiteboard cache) is outside the specified core. -/
structure HubState where
  clients : List (String × List (String × Client))
  userMap : List (String × Client)
  sfuClient : Option Client
  iceBuffers : List (String × ICEBuffer)
  queues : List (Nat × SendQ)
deriving DecidableEq, Repr

/-- NewHub(): all maps empty, no SFU connection. -/
def initHub : HubState :=
  { clients := [], userMap := [], sfuClient := none, iceBuffers := [], queues := [] }

def sfuChannel : String := "sfu-internal-channel"

/-- Queue creation at ServeWs: each client arrives at Register with a fresh
open Send channel (unless its cid is somehow already tracked). -/
def qEnsure (c : Client) (qs : List (Nat × SendQ)) : List (Nat × SendQ) :=
  match alookup c.cid qs with
  | some _ => qs
  | none => aset c.cid { pending := 0, cap := c.sendCap, closed := false } qs

/-- One successful enqueue into a channel. -/
def qBump (cid : Nat) (qs : List (Nat × SendQ)) : List (Nat × SendQ) :=
  match alookup cid qs with
  | some q => aset cid { q with pending := q.pending + 1 } qs
  | none => qs

def qBumpN (cid : Nat) : Nat → List (Nat × SendQ) → List (Nat × SendQ)
  | 0, qs => qs
  | n + 1, qs => qBumpN cid n (qBump cid qs)

/-- close(ch). -/
def qClose (cid : Nat) (qs : List (Nat × SendQ)) : List (Nat × SendQ) :=
  match alookup cid qs with
  | some q => aset cid { q with closed := true } qs
  | none => aset cid { pending := 0, cap := 0, closed := true } qs

/-- A try-send hits the default branch when the channel cannot accept the
message immediately (buffer full, or closed, or untracked). -/
def qFull (cid : Nat) (qs : List (Nat × SendQ)) : Bool :=
  match alookup cid qs with
  | some q => q.closed || decide (q.cap ≤ q.pending)
  | none => true

/-- A bare "c.Send <- msg": the event loop blocks until the enqueue succeeds,
so the model enqueues unconditionally and records a blocking delivery to the
client found under key uid. -/
def blockingSend (s : HubState) (uid : String) (c : Client) (m : WireMsg) :
    HubState × List Out :=
  ({ s with queues := qBump c.cid s.queues }, [Out.send uid c.cid m Mode.blocking])

/-- A bare "h.sfuClient.Send <- msg". -/
def blockingSendSFU (s : HubState) (c : Client) (m : WireMsg) : HubState × List Out :=
  ({ s with queues := qBump c.cid s.queues }, [Out.sendSFU m])

/-- The presence payload built by broadcastPresence from the current room. -/
def presenceList (room : List (String × Client)) : List (String × String) :=
  room.map fun p => (p.2.userID, p.2.username)

/-- One iteration of the broadcastPresence delivery loop: select/default send
of the presence message, dropping it for a client whose queue is full. -/
def presenceStepOne (users : List (String × String)) (acc : HubState × List Out)
    (p : String × Client) : HubState × List Out :=
  let (s, outs) := acc
  if qFull p.2.cid s.queues then
    (s, outs ++ [Out.presenceDrop p.1 p.2.cid])
  else
    ({ s with queues := qBump p.2.cid s.queues },
     outs ++ [Out.send p.1 p.2.cid (WireMsg.presence users) Mode.tryPresence])

/-- ws.Hub.broadcastPresence. -/
def broadcastPresence (s : HubState) (projectID : String) : HubState × List Out :=
  match alookup projectID s.clients with
  | none => (s, [])
  | some room => room.foldl (presenceStepOne (presenceList room)) (s, [])

/-- The candidate messages flushICE constructs: Target userID, Sender "sfu". -/
def flushMsgs (userID : String) (dest : Client) (cands : List String) : List Out :=
  cands.map fun cd => Out.send userID dest.cid (WireMsg.ice userID "sfu" cd) Mode.blocking

/-- ws.Hub.flushICE: replay every buffered candidate (to the explicit target
if non-nil, else to UserMap[userID] if connected, else nowhere), then clear
the candidate queue; the buffer entity itself persists. -/
def flushICE (s : HubState) (userID : String) (target : Option Client) :
    HubState × List Out :=
  match alookup userID s.iceBuffers with
  | none => (s, [])
  | some buf =>
    let dest := match target with
      | some t => some t
      | none => alookup userID s.userMap
    let outs := match dest with
      | some d => flushMsgs userID d buf.candidates
      | none => []
    let qs := match dest with
      | some d => qBumpN d.cid buf.candidates.length s.queues
      | none => s.queues
    ({ s with iceBuffers := aset userID { buf with candidates := [] } s.iceBuffers,
              queues := qs },
     outs)

/-- ws.Hub.ensureICEBuffer. -/
def ensureICEBuffer (s : HubState) (userID : String) : HubState :=
  match alookup userID s.iceBuffers with
  | some _ => s
  | none => { s with iceBuffers := aset userID ICEBuffer.fresh s.iceBuffers }

/-- The buffer currently held for a user (the zero buffer if absent). -/
def bufOf (s : HubState) (userID : String) : ICEBuffer :=
  (alookup userID s.iceBuffers).getD ICEBuffer.fresh

/-- Hub event-loop inputs: the four event sources of Hub.Run. Broadcast
payloads arrive pre-parsed; a payload that fails to unmarshal leaves the
zero SignalPayload (empty sender and data), which the source ignores the
error of and uses anyway. -/
inductive Event
  | register (c : Client)
  | unregister (c : Client)
  | sfuOffer (target sender data : String)
  | sfuIce (target sender data : String)
  | sfuOther (target sender data : String)
  | bJoin (sender : Client)
  | bAnswer (sender : Client) (pSender pData : String)
  | bIce (sender : Client) (pSender pData : String)
  | bGeneric (sender : Client) (projectID : String) (data : String)
deriving DecidableEq, Repr

/-- Hub.Run, case client := <-h.Register. -/
def registerStep (s : HubState) (c : Client) : HubState × List Out :=
  let s0 := { s with queues := qEnsure c s.queues }
  if c.projectID = sfuChannel then
    match s0.sfuClient with
    | some old => ({ s0 with sfuClient := some c }, [Out.closeConn old.cid])
    | none => ({ s0 with sfuClient := some c }, [])
  else
    let stage := match alookup c.userID s0.userMap with
      | some old => ({ s0 with queues := qClose old.cid s0.queues }, [Out.closeQueue old.cid])
      | none => (s0, ([] : List Out))
    let s1 := stage.1
    let room := (alookup c.projectID s1.clients).getD []
    let s2 := { s1 with
      clients := aset c.projectID (aset c.userID c room) s1.clients,
      userMap := aset c.userID c s1.userMap }
    let fin := broadcastPresence s2 c.projectID
    (fin.1, stage.2 ++ fin.2)

/-- Hub.Run, case client := <-h.Unregister, non-SFU branch. -/
def unregisterRoom (s : HubState) (c : Client) : HubState × List Out :=
  match alookup c.projectID s.clients with
  | none => (s, [])
  | some room =>
    let stage : HubState × List Out × List (String × Client) :=
      match alookup c.userID room with
      | some cc =>
        if cc.cid = c.cid then
          let room1 := aerase c.userID room
          let s1 := { s with
            clients := aset c.projectID room1 s.clients,
            userMap := aerase c.userID s.userMap,
            queues := qClose c.cid s.queues }
          match s.sfuClient with
          | some sc =>
            ({ s1 with queues := qBump sc.cid s1.queues },
             [Out.closeQueue c.cid, Out.sendSFU (WireMsg.disconnectNote c.userID)], room1)
          | none => (s1, [Out.closeQueue c.cid], room1)
        else (s, [], room)
      | none => (s, [], room)
    let s1 := stage.1
    let outs1 := stage.2.1
    let room1 := stage.2.2
    if room1 = [] then
      ({ s1 with clients := aerase c.projectID s1.clients }, outs1)
    else
      let fin := broadcastPresence s1 c.projectID
      (fin.1, outs1 ++ fin.2)

/-- Hub.Run, case client := <-h.Unregister. -/
def unregisterStep (s : HubState) (c : Client) : HubState × List Out :=
  match s.sfuClient with
  | some sc =>
    if sc.cid = c.cid then ({ s with sfuClient := none }, [])
    else unregisterRoom s c
  | none => unregisterRoom s c

/-- Hub.Run, sfuMessages case "webrtc_offer". -/
def sfuOfferStep (s : HubState) (target sender data : String) : HubState × List Out :=
  let s0 := ensureICEBuffer s target
  let buf := bufOf s0 target
  match alookup target s0.userMap with
  | some tc =>
    let s1 := { s0 with iceBuffers := aset target { buf with offerSent := true } s0.iceBuffers }
    let d1 := blockingSend s1 target tc (WireMsg.offer target sender data)
    let d2 := flushICE d1.1 target (some tc)
    (d2.1, d1.2 ++ d2.2)
  | none =>
    let newBuf := { buf with pendingOffer := some (WireMsg.offer target sender data) }
    ({ s0 with iceBuffers := aset target newBuf s0.iceBuffers }, [])

/-- Hub.Run, sfuMessages case "webrtc_ice_candidate". -/
def sfuIceStep (s : HubState) (target sender data : String) : HubState × List Out :=
  let s0 := ensureICEBuffer s target
  let buf := bufOf s0 target
  let buffered := { buf with candidates := buf.candidates ++ [data] }
  match alookup target s0.userMap with
  | some tc =>
    if !buf.offerSent && !buf.answerSent then
      ({ s0 with iceBuffers := aset target buffered s0.iceBuffers }, [])
    else
      blockingSend s0 target tc (WireMsg.ice target sender data)
  | none =>
    ({ s0 with iceBuffers := aset target buffered s0.iceBuffers }, [])

/-- Hub.Run, sfuMessages default case: raw passthrough to the addressed user
if connected, else dropped. -/
def sfuOtherStep (s : HubState) (target sender data : String) : HubState × List Out :=
  match alookup target s.userMap with
  | some tc => blockingSend s target tc (WireMsg.other target sender data)
  | none => (s, [])

/-- Hub.Run, Broadcast case "webrtc_join". -/
def bJoinStep (s : HubState) (sender : Client) : HubState × List Out :=
  match s.sfuClient with
  | none => (s, [])
  | some sfu =>
    let s0 := ensureICEBuffer s sender.userID
    let buf := bufOf s0 sender.userID
    let stage : HubState × List Out :=
      match buf.pendingOffer with
      | some po =>
        let dA := blockingSend s0 sender.userID sender po
        let newBuf := { buf with offerSent := true, pendingOffer := none }
        let sB := { dA.1 with iceBuffers := aset sender.userID newBuf dA.1.iceBuffers }
        let dC := flushICE sB sender.userID (some sender)
        (dC.1, dA.2 ++ dC.2)
      | none => (s0, [])
    let fin := blockingSendSFU stage.1 sfu (WireMsg.connectReq sender.userID sender.projectID)
    (fin.1, stage.2 ++ fin.2)

/-- Hub.Run, Broadcast case "webrtc_answer": the buffer mutated is chosen by
the client-supplied payload.Sender; the envelope forwarded to the SFU carries
the authenticated message.Sender.UserID. -/
def bAnswerStep (s : HubState) (sender : Client) (pSender pData : String) :
    HubState × List Out :=
  match s.sfuClient with
  | none => (s, [])
  | some sfu =>
    let s0 := ensureICEBuffer s pSender
    let buf := bufOf s0 pSender
    let s1 := { s0 with iceBuffers := aset pSender { buf with answerSent := true } s0.iceBuffers }
    let d1 := blockingSendSFU s1 sfu (WireMsg.answerToSFU sender.userID pData)
    let d2 := flushICE d1.1 pSender none
    (d2.1, d1.2 ++ d2.2)

/-- Hub.Run, Broadcast case "webrtc_ice_candidate" (client to SFU direction). -/
def bIceStep (s : HubState) (sender : Client) (pSender pData : String) :
    HubState × List Out :=
  match s.sfuClient with
  | none => (s, [])
  | some sfu =>
    let s0 := ensureICEBuffer s pSender
    let buf := bufOf s0 pSender
    let buffered := { buf with candidates := buf.candidates ++ [pData] }
    if !buf.offerSent && !buf.answerSent then
      ({ s0 with iceBuffers := aset pSender buffered s0.iceBuffers }, [])
    else
      blockingSendSFU s0 sfu (WireMsg.iceToSFU sender.userID pData)

/-- One iteration of the generic fan-out loop: skip the sender, select/default
enqueue, and on a full queue close the channel and evict the client from the
room and user maps (the loop then continues with the other recipients). -/
def fanStepOne (sender : Client) (data : String) (pid : String)
    (acc : HubState × List Out) (p : String × Client) : HubState × List Out :=
  let (s, outs) := acc
  if p.2.cid = sender.cid then (s, outs)
  else if qFull p.2.cid s.queues then
    ({ s with
        queues := qClose p.2.cid s.queues,
        clients := match alookup pid s.clients with
          | some room => aset pid (aerase p.2.userID room) s.clients
          | none => s.clients,
        userMap := aerase p.2.userID s.userMap },
     outs ++ [Out.evict p.1 p.2.cid])
  else
    ({ s with queues := qBump p.2.cid s.queues },
     outs ++ [Out.send p.1 p.2.cid (WireMsg.generic data) Mode.tryRoom])

/-- Hub.Run, Broadcast default case (editor/whiteboard/file events): fan out
to every other member of the room. The ProjectStates side effects are outside
the specified core. -/
def bGenericStep (s : HubState) (sender : Client) (pid data : String) :
    HubState × List Out :=
  match alookup pid s.clients with
  | none => (s, [])
  | some room => room.foldl (fanStepOne sender data pid) (s, [])

/-- One iteration of Hub.Run's select. -/
def hubStep (s : HubState) : Event → HubState × List Out
  | Event.register c => registerStep s c
  | Event.unregister c => unregisterStep s c
  | Event.sfuOffer t snd d => sfuOfferStep s t snd d
  | Event.sfuIce t snd d => sfuIceStep s t snd d
  | Event.sfuOther t snd d => sfuOtherStep s t snd d
  | Event.bJoin snd => bJoinStep s snd
  | Event.bAnswer snd pS pD => bAnswerStep s snd pS pD
  | Event.bIce snd pS pD => bIceStep s snd pS pD
  | Event.bGeneric snd pid d => bGenericStep s snd pid d

/-- Run the event loop over a list of events, collecting outputs in order. -/
def hubRun (s : HubState) : List Event → HubState × List Out
  | [] => (s, [])
  | e :: es =>
    let d1 := hubStep s e
    let d2 := hubRun d1.1 es
    (d2.1, d1.2 ++ d2.2)

/-- The candidate data carried by an ICE delivery into user U's channel. -/
def iceOutData (U : String) : Out → Option String
  | Out.send uid _ (WireMsg.ice _ _ d) _ => if uid = U then some d else none
  | _ => none

/-- All ICE candidate payloads delivered into U's channel, in delivery order. -/
def iceDataTo (U : String) (outs : List Out) : List String :=
  outs.filterMap (iceOutData U)

/-- Whether the Hub considers U's offer/answer sent: either direction flag of
U's ICE buffer. -/
def descSent (s : HubState) (U : String) : Bool :=
  (bufOf s U).offerSent || (bufOf s U).answerSent

/-- The candidate data an event contributes for user U's buffer: SFU-to-client
candidates addressed to U, and client-to-SFU candidates whose payload sender
is U (both directions share U's buffer in the source). -/
def arrivalData (U : String) : Event → Option String
  | Event.sfuIce t _ d => if t = U then some d else none
  | Event.bIce _ pS d => if pS = U then some d else none
  | _ => none

/-- All candidate payloads that arrived for user U's buffer, in arrival order. -/
def arrivalsFor (U : String) (es : List Event) : List String :=
  es.filterMap (arrivalData U)

/-- Every client stored in a room belongs to that room's project, under its own
userID. -/
def RoomsInv (s : HubState) : Prop :=
  ∀ pid room, alookup pid s.clients = some room →
    ∀ uid c, alookup uid room = some c → c.projectID = pid ∧ c.userID = uid

/-- Every UserMap entry is keyed by its client's userID. -/
def UserMapInv (s : HubState) : Prop :=
  ∀ uid c, alookup uid s.userMap = some c → c.userID = uid

/-- Every UserMap entry is also registered in its project's room. -/
def UserRoomInv (s : HubState) : Prop :=
  ∀ uid c, alookup uid s.userMap = some c →
    ∃ room, alookup c.projectID s.clients = some room ∧ alookup uid room = some c

/-- Well-formedness of reachable Hub states. -/
def Wf (s : HubState) : Prop := RoomsInv s ∧ UserMapInv s ∧ UserRoomInv s

/-! Concrete clients and traces used as counterexamples and witnesses. -/

def cU : Client := { cid := 1, userID := "u", username := "U", projectID := "p", sendCap := 4 }

def cX : Client := { cid := 2, userID := "x", username := "X", projectID := "p", sendCap := 4 }

def cS : Client :=
  { cid := 9, userID := "sfu", username := "SFU Server", projectID := "sfu-internal-channel",
    sendCap := 4 }

def cP1 : Client := { cid := 1, userID := "u", username := "U", projectID := "p1", sendCap := 4 }

def cP2 : Client := { cid := 2, userID := "u", username := "U", projectID := "p2", sendCap := 4 }

def cZ : Client := { cid := 3, userID := "z", username := "Z", projectID := "p", sendCap := 0 }

/-- Candidate "c1" for user "u" arrives while "u" is offline; a webrtc_answer
broadcast naming "u" as payload sender is processed before "u" connects. -/
def traceLost : List Event :=
  [Event.register cX, Event.register cS, Event.sfuIce "u" "sfu" "c1",
   Event.bAnswer cX "u" "a", Event.register cU]

/-- A state with only user "u" connected. -/
def sWitU : HubState := (hubRun initHub [Event.register cU]).1

/-- A state with user "u" connected, the SFU connected, and one candidate for
"u" buffered (flags still unset). -/
def sWitUS : HubState :=
  (hubRun initHub [Event.register cU, Event.register cS,
    Event.sfuIce "u" "sfu" "c0"]).1

/-- User "u" reconnects under a different project: first registration in
project p1, second in project p2 with a fresh connection id. -/
def traceStale : List Event := [Event.register cP1]

/-- The client-to-SFU direction bug scenario: user "u" and the SFU are
connected; "u" broadcasts an ICE candidate before its answer (buffered), then
broadcasts its answer. -/
def traceC3 : List Event :=
  [Event.register cU, Event.register cS, Event.bIce cU "u" "c1",
   Event.bAnswer cU "u" "a"]

/-- User "u" is connected and the SFU sends it an offer. -/
def traceOfferBlocking : List Event := [Event.register cU, Event.sfuOffer "u" "sfu" "o1"]

/-- A room with client "z" (zero-capacity queue) and client "x". -/
def sWitZX : HubState := (hubRun initHub [Event.register cZ, Event.register cX]).1

/-- SFU connected, an offer and a candidate for "u" buffered while "u" was
offline, then "u" connects. -/
def sWitJoin : HubState :=
  (hubRun initHub [Event.register cS, Event.sfuOffer "u" "sfu" "o",
    Event.sfuIce "u" "sfu" "c0", Event.register cU]).1

/-- Clients "x" and "u" and the SFU all connected. -/
def sWitXUS : HubState :=
  (hubRun initHub [Event.register cX, Event.register cU, Event.register cS]).1

end WS


/-! ### Theorems: association-list map facts -/

theorem alookup_aerase_self {κ α : Type} [DecidableEq κ] (k : κ) (l : List (κ × α)) :
    alookup k (aerase k l) = none := by
  induction l with
  | nil => rfl
  | cons p rest ih =>
    by_cases h : p.1 = k <;> simp [aerase, alookup, h, ih]

theorem alookup_aerase_ne {κ α : Type} [DecidableEq κ] {k k' : κ} (h : k' ≠ k)
    (l : List (κ × α)) : alookup k' (aerase k l) = alookup k' l := by
  induction l with
  | nil => rfl
  | cons p rest ih =>
    by_cases hp : p.1 = k
    · have hpk : p.1 ≠ k' := fun hh => h (hh ▸ hp)
      simp [aerase, alookup, hp, hpk, Ne.symm h, ih]
    · by_cases hp' : p.1 = k' <;> simp [aerase, alookup, hp, hp', h, Ne.symm h, ih]

theorem alookup_aset_self {κ α : Type} [DecidableEq κ] (k : κ) (v : α) (l : List (κ × α)) :
    alookup k (aset k v l) = some v := by
  induction l with
  | nil => simp [aset, alookup]
  | cons p rest ih =>
    by_cases h : p.1 = k <;> simp [aset, alookup, h, ih]

theorem alookup_aset_ne {κ α : Type} [DecidableEq κ] {k k' : κ} (h : k' ≠ k) (v : α)
    (l : List (κ × α)) : alookup k' (aset k v l) = alookup k' l := by
  induction l with
  | nil => simp [aset, alookup, Ne.symm h]
  | cons p rest ih =>
    by_cases hp : p.1 = k
    · have hpk : p.1 ≠ k' := fun hh => h (hh ▸ hp)
      simp [aset, alookup, hp, hpk, Ne.symm h, alookup_aerase_ne h]
    · by_cases hp' : p.1 = k' <;> simp [aset, alookup, hp, hp', h, Ne.symm h, ih]

theorem not_mem_aerase_self {κ α : Type} [DecidableEq κ] (k : κ) (w : α) (l : List (κ × α)) :
    (k, w) ∉ aerase k l := by
  induction l with
  | nil => simp [aerase]
  | cons p rest ih =>
    by_cases hp : p.1 = k
    · simpa [aerase, hp] using ih
    · simp only [aerase, hp, if_false, List.mem_cons]
      rintro (h | h)
      · exact hp (by rw [← h])
      · exact ih h

theorem mem_aerase_of_mem {κ α : Type} [DecidableEq κ] {k : κ} {p : κ × α} {l : List (κ × α)}
    (hk : p.1 ≠ k) (h : p ∈ l) : p ∈ aerase k l := by
  induction l with
  | nil => simp at h
  | cons q rest ih =>
    rcases List.mem_cons.1 h with h | h
    · subst h; simp [aerase, hk]
    · by_cases hq : q.1 = k <;> simp [aerase, hq, ih h]

theorem mem_of_mem_aerase {κ α : Type} [DecidableEq κ] {k : κ} {p : κ × α} {l : List (κ × α)}
    (h : p ∈ aerase k l) : p ∈ l := by
  induction l with
  | nil => simp [aerase] at h
  | cons q rest ih =>
    by_cases hq : q.1 = k
    · simp only [aerase, hq, if_true] at h
      exact List.mem_cons.2 (Or.inr (ih h))
    · simp only [aerase, hq, if_false, List.mem_cons] at h
      rcases h with h | h
      · exact List.mem_cons.2 (Or.inl h)
      · exact List.mem_cons.2 (Or.inr (ih h))

theorem mem_aset_self {κ α : Type} [DecidableEq κ] {k : κ} {v w : α} {l : List (κ × α)}
    (h : (k, w) ∈ aset k v l) : w = v := by
  induction l with
  | nil => simpa [aset] using h
  | cons p rest ih =>
    by_cases hp : p.1 = k
    · simp only [aset, hp, if_true, List.mem_cons] at h
      rcases h with h | h
      · exact (Prod.ext_iff.1 h).2
      · exact absurd h (not_mem_aerase_self k w rest)
    · simp only [aset, hp, if_false, List.mem_cons] at h
      rcases h with h | h
      · exact absurd (congrArg Prod.fst h).symm hp
      · exact ih h

theorem mem_aset_of_ne {κ α : Type} [DecidableEq κ] {k : κ} (v : α) {p : κ × α}
    (hk : p.1 ≠ k) (l : List (κ × α)) : p ∈ aset k v l ↔ p ∈ l := by
  induction l with
  | nil =>
    simp only [aset, List.mem_singleton, List.not_mem_nil, iff_false]
    intro h; exact hk (by rw [h])
  | cons q rest ih =>
    by_cases hq : q.1 = k
    · simp only [aset, hq, if_true, List.mem_cons]
      constructor
      · rintro (h | h)
        · exact absurd (by rw [h]) hk
        · exact Or.inr (mem_of_mem_aerase h)
      · rintro (h | h)
        · subst h; exact absurd hq hk
        · exact Or.inr (mem_aerase_of_mem hk h)
    · simp [aset, hq, List.mem_cons, ih]

theorem alookup_mem {κ α : Type} [DecidableEq κ] {k : κ} {v : α} {l : List (κ × α)} :
    alookup k l = some v → (k, v) ∈ l := by
  induction l with
  | nil => intro h; simp [alookup] at h
  | cons p rest ih =>
    obtain ⟨pk, pv⟩ := p
    intro h
    by_cases hp : pk = k
    · simp only [alookup, hp, if_true, Option.some.injEq] at h
      subst hp; subst h
      exact List.mem_cons_self _ _
    · simp only [alookup, hp, if_false] at h
      exact List.mem_cons.2 (Or.inr (ih h))

namespace SFU

theorem indexOfAux_nonneg_iff (sub : List Char) (hsub : sub ≠ []) :
    ∀ (s : List Char) (i : Nat), 0 ≤ indexOfAux sub s i ↔ sub <:+: s := by
  intro s
  induction s with
  | nil =>
    intro i
    simp [indexOfAux, hsub, List.infix_nil]
  | cons c rest ih =>
    intro i
    simp only [indexOfAux]
    by_cases hl : sub.length > (c :: rest).length
    · simp only [hl, if_true]
      constructor
      · intro h; exact absurd h (by norm_num)
      · intro h; exact absurd h.length_le (by omega)
    · simp only [hl, if_false]
      by_cases ht : (c :: rest).take sub.length = sub
      · simp only [ht, if_true]
        constructor
        · intro _
          exact List.infix_cons_iff.2 (Or.inl (List.prefix_iff_eq_take.2 ht.symm))
        · intro _
          exact Int.ofNat_nonneg i
      · simp only [ht, if_false, ih (i + 1)]
        rw [List.infix_cons_iff]
        constructor
        · exact Or.inr
        · rintro (hpre | hinf)
          · exact absurd (List.prefix_iff_eq_take.1 hpre).symm ht
          · exact hinf

theorem indexOf_nonneg_iff (s sub : List Char) : 0 ≤ indexOf s sub ↔ sub <:+: s := by
  by_cases h : sub = []
  · subst h
    simp only [indexOf, if_true]
    exact iff_of_true (by norm_num) ⟨[], s, rfl⟩
  · simp [indexOf, h, indexOfAux_nonneg_iff sub h s 0]

theorem indexOfAux_min (sub : List Char) (hsub : sub ≠ []) :
    ∀ (s : List Char) (i n : Nat), indexOfAux sub s i = Int.ofNat n →
      i ≤ n ∧ sub <+: s.drop (n - i) ∧ ∀ m, m < n - i → ¬ sub <+: s.drop m := by
  intro s
  induction s with
  | nil =>
    intro i n h
    simp [indexOfAux, hsub] at h
  | cons c rest ih =>
    intro i n h
    simp only [indexOfAux] at h
    by_cases hl : sub.length > (c :: rest).length
    · rw [if_pos hl] at h
      exact absurd h (by simp)
    · rw [if_neg hl] at h
      by_cases ht : (c :: rest).take sub.length = sub
      · rw [if_pos ht] at h
        have hin : i = n := Int.ofNat.inj h
        subst hin
        refine ⟨le_refl _, ?_, ?_⟩
        · rw [Nat.sub_self, List.drop_zero]
          exact List.prefix_iff_eq_take.2 ht.symm
        · intro m hm
          omega
      · rw [if_neg ht] at h
        obtain ⟨h1, h2, h3⟩ := ih (i + 1) n h
        refine ⟨by omega, ?_, ?_⟩
        · have hd : (c :: rest).drop (n - i) = rest.drop (n - (i + 1)) := by
            have hni : n - i = (n - (i + 1)) + 1 := by omega
            rw [hni, List.drop_succ_cons]
          rw [hd]
          exact h2
        · intro m hm
          cases m with
          | zero =>
            rw [List.drop_zero]
            intro hpre
            exact ht (List.prefix_iff_eq_take.1 hpre).symm
          | succ m =>
            rw [List.drop_succ_cons]
            exact h3 m (by omega)

theorem indexOf_min (s sub : List Char) (hsub : sub ≠ []) (n : Nat)
    (h : indexOf s sub = Int.ofNat n) :
    sub <+: s.drop n ∧ ∀ m, m < n → ¬ sub <+: s.drop m := by
  simp only [indexOf, hsub, if_false] at h
  obtain ⟨h1, h2, h3⟩ := indexOfAux_min sub hsub s 0 n h
  rw [Nat.sub_zero] at h2
  refine ⟨h2, fun m hm => h3 m (by omega)⟩

theorem string_data_nil_iff (s : String) : s.data = [] ↔ s = "" := by
  constructor
  · intro h
    exact String.ext h
  · intro h
    rw [h]

theorem containsPublisherID_iff (s p : String) :
    containsPublisherID s p = true ↔ s ≠ "" ∧ p ≠ "" ∧ p.data <:+: s.data := by
  unfold containsPublisherID stringContains
  by_cases hs : s = ""
  · simp [hs]
  by_cases hp : p = ""
  · simp [hp]
  simp only [hs, hp, Bool.or_self, if_false, Bool.and_eq_true, Bool.or_eq_true,
    decide_eq_true_eq, ne_eq, not_false_iff, true_and, Bool.or_eq_false_iff]
  constructor
  · rintro ⟨hlen, heq | ⟨hlt, hle, hidx⟩⟩
    · exact heq ▸ List.infix_rfl
    · exact (indexOf_nonneg_iff s.data p.data).1 hidx
  · intro hinf
    refine ⟨hinf.length_le, ?_⟩
    rcases Nat.lt_or_ge p.data.length s.data.length with hlt | hge
    · exact Or.inr ⟨hlt, hinf.length_le, (indexOf_nonneg_iff s.data p.data).2 hinf⟩
    · exact Or.inl (String.ext (hinf.eq_of_length_le hge)).symm

end SFU

namespace WS

theorem qBump_other {cid cid' : Nat} (h : cid' ≠ cid) (qs : List (Nat × SendQ)) :
    alookup cid' (qBump cid qs) = alookup cid' qs := by
  unfold qBump
  split
  · exact alookup_aset_ne h _ _
  · rfl

theorem qClose_other {cid cid' : Nat} (h : cid' ≠ cid) (qs : List (Nat × SendQ)) :
    alookup cid' (qClose cid qs) = alookup cid' qs := by
  unfold qClose
  split <;> exact alookup_aset_ne h _ _

theorem qClose_closed (cid : Nat) (qs : List (Nat × SendQ)) :
    ∃ q, alookup cid (qClose cid qs) = some q ∧ q.closed = true := by
  unfold qClose
  split <;> exact ⟨_, alookup_aset_self _ _ _, rfl⟩

theorem ensureICEBuffer_clients (s : HubState) (U : String) :
    (ensureICEBuffer s U).clients = s.clients := by
  unfold ensureICEBuffer; split <;> rfl

theorem ensureICEBuffer_userMap (s : HubState) (U : String) :
    (ensureICEBuffer s U).userMap = s.userMap := by
  unfold ensureICEBuffer; split <;> rfl

theorem ensureICEBuffer_sfuClient (s : HubState) (U : String) :
    (ensureICEBuffer s U).sfuClient = s.sfuClient := by
  unfold ensureICEBuffer; split <;> rfl

theorem ensureICEBuffer_queues (s : HubState) (U : String) :
    (ensureICEBuffer s U).queues = s.queues := by
  unfold ensureICEBuffer; split <;> rfl

theorem bufOf_ensure (s : HubState) (U V : String) :
    bufOf (ensureICEBuffer s U) V = bufOf s V := by
  unfold ensureICEBuffer
  split
  · rfl
  case _ h =>
    unfold bufOf
    by_cases hUV : V = U
    · subst hUV
      rw [show ({ s with iceBuffers := aset V ICEBuffer.fresh s.iceBuffers } :
            HubState).iceBuffers = aset V ICEBuffer.fresh s.iceBuffers from rfl,
          alookup_aset_self, h]
      rfl
    · rw [show ({ s with iceBuffers := aset U ICEBuffer.fresh s.iceBuffers } :
            HubState).iceBuffers = aset U ICEBuffer.fresh s.iceBuffers from rfl,
          alookup_aset_ne hUV]

theorem bufOf_lookup_ensure (s : HubState) (U : String) :
    alookup U (ensureICEBuffer s U).iceBuffers = some (bufOf s U) := by
  unfold ensureICEBuffer bufOf
  split
  case _ b h => rw [h]; rfl
  case _ h => rw [show ({ s with iceBuffers := aset U ICEBuffer.fresh s.iceBuffers } :
      HubState).iceBuffers = aset U ICEBuffer.fresh s.iceBuffers from rfl,
    alookup_aset_self, h]; rfl

theorem flushICE_clients (s : HubState) (U : String) (t : Option Client) :
    (flushICE s U t).1.clients = s.clients := by
  unfold flushICE; split <;> rfl

theorem flushICE_userMap (s : HubState) (U : String) (t : Option Client) :
    (flushICE s U t).1.userMap = s.userMap := by
  unfold flushICE; split <;> rfl

theorem flushICE_sfuClient (s : HubState) (U : String) (t : Option Client) :
    (flushICE s U t).1.sfuClient = s.sfuClient := by
  unfold flushICE; split <;> rfl

theorem flushICE_bufOf_ne (s : HubState) (U : String) (t : Option Client) {V : String}
    (h : V ≠ U) : bufOf (flushICE s U t).1 V = bufOf s V := by
  unfold flushICE
  split
  · rfl
  · unfold bufOf
    rw [show (∀ ib qs, ({ s with iceBuffers := ib, queues := qs } : HubState).iceBuffers = ib)
        from fun ib qs => rfl]
    rw [alookup_aset_ne h]

theorem flushICE_bufOf_self {s : HubState} {U : String} (t : Option Client) {buf : ICEBuffer}
    (h : alookup U s.iceBuffers = some buf) :
    bufOf (flushICE s U t).1 U = { buf with candidates := [] } := by
  unfold flushICE
  rw [h]
  unfold bufOf
  rw [show (∀ ib qs, ({ s with iceBuffers := ib, queues := qs } : HubState).iceBuffers = ib)
      from fun ib qs => rfl]
  rw [alookup_aset_self]
  rfl

theorem flushICE_outs_target {s : HubState} {U : String} (tc : Client) {buf : ICEBuffer}
    (h : alookup U s.iceBuffers = some buf) :
    (flushICE s U (some tc)).2 = flushMsgs U tc buf.candidates := by
  unfold flushICE
  rw [h]

theorem flushICE_outs_userMap {s : HubState} {U : String} {buf : ICEBuffer} {c : Client}
    (h : alookup U s.iceBuffers = some buf) (hc : alookup U s.userMap = some c) :
    (flushICE s U none).2 = flushMsgs U c buf.candidates := by
  unfold flushICE
  rw [h]
  simp only [hc]

theorem flushICE_outs_drop {s : HubState} {U : String} {buf : ICEBuffer}
    (h : alookup U s.iceBuffers = some buf) (hc : alookup U s.userMap = none) :
    (flushICE s U none).2 = [] := by
  unfold flushICE
  rw [h]
  simp only [hc]

theorem presenceFold_state (us : List (String × String)) (room : List (String × Client)) :
    ∀ (s : HubState) (outs : List Out),
      (room.foldl (presenceStepOne us) (s, outs)).1.clients = s.clients ∧
      (room.foldl (presenceStepOne us) (s, outs)).1.userMap = s.userMap ∧
      (room.foldl (presenceStepOne us) (s, outs)).1.sfuClient = s.sfuClient ∧
      (room.foldl (presenceStepOne us) (s, outs)).1.iceBuffers = s.iceBuffers := by
  induction room with
  | nil => intro s outs; exact ⟨rfl, rfl, rfl, rfl⟩
  | cons p rest ih =>
    intro s outs
    rw [List.foldl_cons]
    unfold presenceStepOne
    by_cases h : qFull p.2.cid s.queues = true
    · simp only [h, if_true]
      exact ih s _
    · simp only [h, if_false]
      exact ih _ _

theorem presenceFold_outs_mono (us : List (String × String)) (room : List (String × Client)) :
    ∀ (s : HubState) (outs : List Out) (x : Out), x ∈ outs →
      x ∈ (room.foldl (presenceStepOne us) (s, outs)).2 := by
  induction room with
  | nil => intro s outs x hx; exact hx
  | cons p rest ih =>
    intro s outs x hx
    rw [List.foldl_cons]
    unfold presenceStepOne
    by_cases h : qFull p.2.cid s.queues = true
    · simp only [h, if_true]
      exact ih s _ x (List.mem_append_left _ hx)
    · simp only [h, if_false]
      exact ih _ _ x (List.mem_append_left _ hx)

theorem presenceFold_member (us : List (String × String)) (room : List (String × Client)) :
    ∀ (s : HubState) (outs : List Out) (p : String × Client), p ∈ room →
      Out.send p.1 p.2.cid (WireMsg.presence us) Mode.tryPresence ∈
          (room.foldl (presenceStepOne us) (s, outs)).2 ∨
        Out.presenceDrop p.1 p.2.cid ∈ (room.foldl (presenceStepOne us) (s, outs)).2 := by
  induction room with
  | nil => intro s outs p hp; simp at hp
  | cons q rest ih =>
    intro s outs p hp
    rw [List.foldl_cons]
    rcases List.mem_cons.1 hp with hp | hp
    · subst hp
      unfold presenceStepOne
      by_cases h : qFull p.2.cid s.queues = true
      · simp only [h, if_true]
        exact Or.inr (presenceFold_outs_mono us rest _ _ _
          (List.mem_append_right _ (List.mem_singleton.2 rfl)))
      · simp only [h, if_false]
        exact Or.inl (presenceFold_outs_mono us rest _ _ _
          (List.mem_append_right _ (List.mem_singleton.2 rfl)))
    · unfold presenceStepOne
      by_cases h : qFull q.2.cid s.queues = true
      · simp only [h, if_true]
        exact ih s _ p hp
      · simp only [h, if_false]
        exact ih _ _ p hp

theorem presenceFold_payload (us : List (String × String)) (room : List (String × Client)) :
    ∀ (s : HubState) (outs : List Out),
      (∀ uid cid l m, Out.send uid cid (WireMsg.presence l) m ∈ outs → l = us) →
      ∀ uid cid l m,
        Out.send uid cid (WireMsg.presence l) m ∈ (room.foldl (presenceStepOne us) (s, outs)).2 →
        l = us := by
  induction room with
  | nil => intro s outs h uid cid l m hm; exact h uid cid l m hm
  | cons p rest ih =>
    intro s outs h uid cid l m hm
    rw [List.foldl_cons] at hm
    by_cases hq : qFull p.2.cid s.queues = true
    · rw [show presenceStepOne us (s, outs) p = (s, outs ++ [Out.presenceDrop p.1 p.2.cid]) by
        unfold presenceStepOne; simp [hq]] at hm
      refine ih s _ ?_ uid cid l m hm
      intro uid' cid' l' m' hm'
      rcases List.mem_append.1 hm' with hh | hh
      · exact h uid' cid' l' m' hh
      · simp at hh
    · rw [show presenceStepOne us (s, outs) p =
          ({ s with queues := qBump p.2.cid s.queues },
            outs ++ [Out.send p.1 p.2.cid (WireMsg.presence us) Mode.tryPresence]) by
        unfold presenceStepOne; simp [hq]] at hm
      refine ih _ _ ?_ uid cid l m hm
      intro uid' cid' l' m' hm'
      rcases List.mem_append.1 hm' with hh | hh
      · exact h uid' cid' l' m' hh
      · simp only [List.mem_singleton, Out.send.injEq, WireMsg.presence.injEq] at hh
        exact hh.2.2.1

theorem broadcastPresence_payload (s : HubState) (pid : String) :
    ∀ uid cid l m, Out.send uid cid (WireMsg.presence l) m ∈ (broadcastPresence s pid).2 →
      ∃ room, alookup pid s.clients = some room ∧ l = presenceList room := by
  unfold broadcastPresence
  split
  · intro uid cid l m hm; simp at hm
  case _ room hroom =>
    intro uid cid l m hm
    exact ⟨room, hroom,
      presenceFold_payload (presenceList room) room s [] (by intro _ _ _ _ h; simp at h)
        uid cid l m hm⟩

theorem broadcastPresence_member {s : HubState} {pid : String} {room : List (String × Client)}
    (hroom : alookup pid s.clients = some room) {p : String × Client} (hp : p ∈ room) :
    Out.send p.1 p.2.cid (WireMsg.presence (presenceList room)) Mode.tryPresence ∈
        (broadcastPresence s pid).2 ∨
      Out.presenceDrop p.1 p.2.cid ∈ (broadcastPresence s pid).2 := by
  unfold broadcastPresence
  rw [hroom]
  exact presenceFold_member _ room s [] p hp

theorem alookup_aerase_none {κ α : Type} [DecidableEq κ] {u k : κ} {l : List (κ × α)}
    (h : alookup u l = none) : alookup u (aerase k l) = none := by
  by_cases huk : u = k
  · subst huk; exact alookup_aerase_self u l
  · rw [alookup_aerase_ne huk]; exact h

theorem fanStepOne_skip {sender : Client} {data pid : String} {s : HubState} {outs : List Out}
    {p : String × Client} (h : p.2.cid = sender.cid) :
    fanStepOne sender data pid (s, outs) p = (s, outs) := by
  unfold fanStepOne; simp [h]

theorem fanStepOne_evict {sender : Client} {data pid : String} {s : HubState} {outs : List Out}
    {p : String × Client} (h : ¬p.2.cid = sender.cid) (hq : qFull p.2.cid s.queues = true) :
    fanStepOne sender data pid (s, outs) p =
      ({ s with
          queues := qClose p.2.cid s.queues,
          clients := match alookup pid s.clients with
            | some room => aset pid (aerase p.2.userID room) s.clients
            | none => s.clients,
          userMap := aerase p.2.userID s.userMap },
       outs ++ [Out.evict p.1 p.2.cid]) := by
  unfold fanStepOne; simp [h, hq]

theorem fanStepOne_send {sender : Client} {data pid : String} {s : HubState} {outs : List Out}
    {p : String × Client} (h : ¬p.2.cid = sender.cid) (hq : qFull p.2.cid s.queues = false) :
    fanStepOne sender data pid (s, outs) p =
      ({ s with queues := qBump p.2.cid s.queues },
       outs ++ [Out.send p.1 p.2.cid (WireMsg.generic data) Mode.tryRoom]) := by
  unfold fanStepOne; simp [h, hq]

theorem fanFold_misc (sender : Client) (data pid : String) (room : List (String × Client)) :
    ∀ (s : HubState) (outs : List Out),
      (room.foldl (fanStepOne sender data pid) (s, outs)).1.iceBuffers = s.iceBuffers ∧
      (room.foldl (fanStepOne sender data pid) (s, outs)).1.sfuClient = s.sfuClient := by
  induction room with
  | nil => intro s outs; exact ⟨rfl, rfl⟩
  | cons p rest ih =>
    intro s outs
    rw [List.foldl_cons]
    by_cases h1 : p.2.cid = sender.cid
    · rw [fanStepOne_skip h1]; exact ih s outs
    · by_cases h2 : qFull p.2.cid s.queues = true
      · rw [fanStepOne_evict h1 h2]
        refine ⟨(ih _ _).1.trans rfl, (ih _ _).2.trans rfl⟩
      · rw [fanStepOne_send h1 (Bool.not_eq_true _ ▸ h2)]
        exact ih _ _

theorem fanFold_outs_mono (sender : Client) (data pid : String) (room : List (String × Client)) :
    ∀ (s : HubState) (outs : List Out) (x : Out), x ∈ outs →
      x ∈ (room.foldl (fanStepOne sender data pid) (s, outs)).2 := by
  induction room with
  | nil => intro s outs x hx; exact hx
  | cons p rest ih =>
    intro s outs x hx
    rw [List.foldl_cons]
    by_cases h1 : p.2.cid = sender.cid
    · rw [fanStepOne_skip h1]; exact ih s outs x hx
    · by_cases h2 : qFull p.2.cid s.queues = true
      · rw [fanStepOne_evict h1 h2]
        exact ih _ _ x (List.mem_append_left _ hx)
      · rw [fanStepOne_send h1 (Bool.not_eq_true _ ▸ h2)]
        exact ih _ _ x (List.mem_append_left _ hx)

theorem fanFold_userMap_none (sender : Client) (data pid : String)
    (room : List (String × Client)) :
    ∀ (s : HubState) (outs : List Out) (u : String), alookup u s.userMap = none →
      alookup u (room.foldl (fanStepOne sender data pid) (s, outs)).1.userMap = none := by
  induction room with
  | nil => intro s outs u hu; exact hu
  | cons p rest ih =>
    intro s outs u hu
    rw [List.foldl_cons]
    by_cases h1 : p.2.cid = sender.cid
    · rw [fanStepOne_skip h1]; exact ih s outs u hu
    · by_cases h2 : qFull p.2.cid s.queues = true
      · rw [fanStepOne_evict h1 h2]
        exact ih _ _ u (alookup_aerase_none hu)
      · rw [fanStepOne_send h1 (Bool.not_eq_true _ ▸ h2)]
        exact ih _ _ u hu

theorem fanFold_queue_other (sender : Client) (data pid : String)
    (room : List (String × Client)) :
    ∀ (s : HubState) (outs : List Out) (cid : Nat), (∀ p ∈ room, p.2.cid ≠ cid) →
      alookup cid (room.foldl (fanStepOne sender data pid) (s, outs)).1.queues =
        alookup cid s.queues := by
  induction room with
  | nil => intro s outs cid _; rfl
  | cons p rest ih =>
    intro s outs cid hne
    rw [List.foldl_cons]
    have hp : p.2.cid ≠ cid := hne p (List.mem_cons_self _ _)
    have hrest : ∀ q ∈ rest, q.2.cid ≠ cid := fun q hq => hne q (List.mem_cons_of_mem _ hq)
    by_cases h1 : p.2.cid = sender.cid
    · rw [fanStepOne_skip h1]; exact ih s outs cid hrest
    · by_cases h2 : qFull p.2.cid s.queues = true
      · rw [fanStepOne_evict h1 h2]
        rw [ih _ _ cid hrest]
        exact qClose_other (Ne.symm hp) s.queues
      · rw [fanStepOne_send h1 (Bool.not_eq_true _ ▸ h2)]
        rw [ih _ _ cid hrest]
        exact qBump_other (Ne.symm hp) s.queues

theorem fanFold_outcome (sender : Client) (data pid : String)
    (room : List (String × Client)) :
    ∀ (s : HubState) (outs : List Out),
      (room.map fun p => p.2.cid).Nodup →
      ∀ p ∈ room, p.2.cid ≠ sender.cid →
        (qFull p.2.cid s.queues = true →
          Out.evict p.1 p.2.cid ∈ (room.foldl (fanStepOne sender data pid) (s, outs)).2 ∧
          (∃ q, alookup p.2.cid
              (room.foldl (fanStepOne sender data pid) (s, outs)).1.queues = some q ∧
            q.closed = true) ∧
          alookup p.2.userID
              (room.foldl (fanStepOne sender data pid) (s, outs)).1.userMap = none) ∧
        (qFull p.2.cid s.queues = false →
          Out.send p.1 p.2.cid (WireMsg.generic data) Mode.tryRoom ∈
            (room.foldl (fanStepOne sender data pid) (s, outs)).2) := by
  induction room with
  | nil => intro s outs _ p hp; simp at hp
  | cons q rest ih =>
    intro s outs hnd p hp hpne
    rw [List.map_cons, List.nodup_cons] at hnd
    have hnd1 : q.2.cid ∉ rest.map fun r => r.2.cid := hnd.1
    have hnd2 : (rest.map fun r => r.2.cid).Nodup := hnd.2
    rw [List.foldl_cons]
    rcases List.mem_cons.1 hp with rfl | hp
    · constructor
      · intro hq
        rw [fanStepOne_evict hpne hq]
        refine ⟨fanFold_outs_mono sender data pid rest _ _ _
            (List.mem_append_right _ (List.mem_singleton.2 rfl)), ?_, ?_⟩
        · have hothers : ∀ r ∈ rest, r.2.cid ≠ p.2.cid := by
            intro r hr heq
            exact hnd1 (heq ▸ List.mem_map_of_mem (fun r => r.2.cid) hr)
          rw [fanFold_queue_other sender data pid rest _ _ _ hothers]
          exact qClose_closed p.2.cid s.queues
        · exact fanFold_userMap_none sender data pid rest _ _ _
            (alookup_aerase_self _ _)
      · intro hq
        rw [fanStepOne_send hpne hq]
        exact fanFold_outs_mono sender data pid rest _ _ _
          (List.mem_append_right _ (List.mem_singleton.2 rfl))
    · have hqp : q.2.cid ≠ p.2.cid := by
        intro heq
        exact hnd1 (heq ▸ List.mem_map_of_mem (fun r => r.2.cid) hp)
      by_cases h1 : q.2.cid = sender.cid
      · rw [fanStepOne_skip h1]
        exact ih s outs hnd2 p hp hpne
      · by_cases h2 : qFull q.2.cid s.queues = true
        · rw [fanStepOne_evict h1 h2]
          have hqsame : qFull p.2.cid (qClose q.2.cid s.queues) = qFull p.2.cid s.queues := by
            unfold qFull
            rw [qClose_other (Ne.symm hqp) s.queues]
          rw [← hqsame]
          exact ih { s with
              queues := qClose q.2.cid s.queues,
              clients := match alookup pid s.clients with
                | some room => aset pid (aerase q.2.userID room) s.clients
                | none => s.clients,
              userMap := aerase q.2.userID s.userMap }
            (outs ++ [Out.evict q.1 q.2.cid]) hnd2 p hp hpne
        · rw [fanStepOne_send h1 (Bool.not_eq_true _ ▸ h2)]
          have hqsame : qFull p.2.cid (qBump q.2.cid s.queues) = qFull p.2.cid s.queues := by
            unfold qFull
            rw [qBump_other (Ne.symm hqp) s.queues]
          rw [← hqsame]
          exact ih { s with queues := qBump q.2.cid s.queues }
            (outs ++ [Out.send q.1 q.2.cid (WireMsg.generic data) Mode.tryRoom]) hnd2 p hp hpne

theorem broadcastPresence_clients (s : HubState) (pid : String) :
    (broadcastPresence s pid).1.clients = s.clients := by
  unfold broadcastPresence
  split
  · rfl
  · exact (presenceFold_state _ _ _ _).1

theorem broadcastPresence_userMap (s : HubState) (pid : String) :
    (broadcastPresence s pid).1.userMap = s.userMap := by
  unfold broadcastPresence
  split
  · rfl
  · exact (presenceFold_state _ _ _ _).2.1

theorem broadcastPresence_sfuClient (s : HubState) (pid : String) :
    (broadcastPresence s pid).1.sfuClient = s.sfuClient := by
  unfold broadcastPresence
  split
  · rfl
  · exact (presenceFold_state _ _ _ _).2.2.1

theorem broadcastPresence_iceBuffers (s : HubState) (pid : String) :
    (broadcastPresence s pid).1.iceBuffers = s.iceBuffers := by
  unfold broadcastPresence
  split
  · rfl
  · exact (presenceFold_state _ _ _ _).2.2.2

theorem bufOf_congr {s t : HubState} (h : s.iceBuffers = t.iceBuffers) (U : String) :
    bufOf s U = bufOf t U := by
  unfold bufOf; rw [h]

theorem sfuOfferStep_maps (s : HubState) (t snd d : String) :
    (sfuOfferStep s t snd d).1.clients = s.clients ∧
    (sfuOfferStep s t snd d).1.userMap = s.userMap ∧
    (sfuOfferStep s t snd d).1.sfuClient = s.sfuClient := by
  simp only [sfuOfferStep]
  split
  · exact ⟨by simp [flushICE_clients, blockingSend, ensureICEBuffer_clients],
      by simp [flushICE_userMap, blockingSend, ensureICEBuffer_userMap],
      by simp [flushICE_sfuClient, blockingSend, ensureICEBuffer_sfuClient]⟩
  · exact ⟨by simp [ensureICEBuffer_clients], by simp [ensureICEBuffer_userMap],
      by simp [ensureICEBuffer_sfuClient]⟩

theorem sfuIceStep_maps (s : HubState) (t snd d : String) :
    (sfuIceStep s t snd d).1.clients = s.clients ∧
    (sfuIceStep s t snd d).1.userMap = s.userMap ∧
    (sfuIceStep s t snd d).1.sfuClient = s.sfuClient := by
  simp only [sfuIceStep]
  split
  · split
    · exact ⟨by simp [ensureICEBuffer_clients], by simp [ensureICEBuffer_userMap],
        by simp [ensureICEBuffer_sfuClient]⟩
    · exact ⟨by simp [blockingSend, ensureICEBuffer_clients],
        by simp [blockingSend, ensureICEBuffer_userMap],
        by simp [blockingSend, ensureICEBuffer_sfuClient]⟩
  · exact ⟨by simp [ensureICEBuffer_clients], by simp [ensureICEBuffer_userMap],
      by simp [ensureICEBuffer_sfuClient]⟩

theorem sfuOtherStep_maps (s : HubState) (t snd d : String) :
    (sfuOtherStep s t snd d).1.clients = s.clients ∧
    (sfuOtherStep s t snd d).1.userMap = s.userMap ∧
    (sfuOtherStep s t snd d).1.sfuClient = s.sfuClient := by
  simp only [sfuOtherStep]
  split
  · exact ⟨by simp [blockingSend], by simp [blockingSend], by simp [blockingSend]⟩
  · exact ⟨rfl, rfl, rfl⟩

theorem sfuOtherStep_iceBuffers (s : HubState) (t snd d : String) :
    (sfuOtherStep s t snd d).1.iceBuffers = s.iceBuffers := by
  simp only [sfuOtherStep]
  split
  · simp [blockingSend]
  · rfl

theorem bJoinStep_maps (s : HubState) (c : Client) :
    (bJoinStep s c).1.clients = s.clients ∧
    (bJoinStep s c).1.userMap = s.userMap ∧
    (bJoinStep s c).1.sfuClient = s.sfuClient := by
  simp only [bJoinStep]
  split
  · exact ⟨rfl, rfl, rfl⟩
  · split
    · exact ⟨by simp [blockingSendSFU, flushICE_clients, blockingSend, ensureICEBuffer_clients],
        by simp [blockingSendSFU, flushICE_userMap, blockingSend, ensureICEBuffer_userMap],
        by simp [blockingSendSFU, flushICE_sfuClient, blockingSend, ensureICEBuffer_sfuClient]⟩
    · exact ⟨by simp [blockingSendSFU, ensureICEBuffer_clients],
        by simp [blockingSendSFU, ensureICEBuffer_userMap],
        by simp [blockingSendSFU, ensureICEBuffer_sfuClient]⟩

theorem bAnswerStep_maps (s : HubState) (c : Client) (pS pD : String) :
    (bAnswerStep s c pS pD).1.clients = s.clients ∧
    (bAnswerStep s c pS pD).1.userMap = s.userMap ∧
    (bAnswerStep s c pS pD).1.sfuClient = s.sfuClient := by
  simp only [bAnswerStep]
  split
  · exact ⟨rfl, rfl, rfl⟩
  · exact ⟨by simp [blockingSendSFU, flushICE_clients, ensureICEBuffer_clients],
      by simp [blockingSendSFU, flushICE_userMap, ensureICEBuffer_userMap],
      by simp [blockingSendSFU, flushICE_sfuClient, ensureICEBuffer_sfuClient]⟩

theorem bIceStep_maps (s : HubState) (c : Client) (pS pD : String) :
    (bIceStep s c pS pD).1.clients = s.clients ∧
    (bIceStep s c pS pD).1.userMap = s.userMap ∧
    (bIceStep s c pS pD).1.sfuClient = s.sfuClient := by
  simp only [bIceStep]
  split
  · exact ⟨rfl, rfl, rfl⟩
  · split
    · exact ⟨by simp [ensureICEBuffer_clients], by simp [ensureICEBuffer_userMap],
        by simp [ensureICEBuffer_sfuClient]⟩
    · exact ⟨by simp [blockingSendSFU, ensureICEBuffer_clients],
        by simp [blockingSendSFU, ensureICEBuffer_userMap],
        by simp [blockingSendSFU, ensureICEBuffer_sfuClient]⟩

theorem sfuOfferStep_conn {s : HubState} {t : String} {tc : Client} (snd d : String)
    (htc : alookup t s.userMap = some tc) :
    (sfuOfferStep s t snd d).2 =
      Out.send t tc.cid (WireMsg.offer t snd d) Mode.blocking ::
        flushMsgs t tc (bufOf s t).candidates ∧
    bufOf (sfuOfferStep s t snd d).1 t =
      { bufOf s t with offerSent := true, candidates := [] } := by
  have hum : alookup t (ensureICEBuffer s t).userMap = some tc := by
    rw [ensureICEBuffer_userMap]; exact htc
  constructor
  · simp [sfuOfferStep, hum, blockingSend, flushICE, bufOf, bufOf_lookup_ensure,
      alookup_aset_self, bufOf_ensure, flushMsgs]
  · simp [sfuOfferStep, hum, blockingSend, flushICE, bufOf, bufOf_lookup_ensure,
      alookup_aset_self, bufOf_ensure]

theorem sfuOfferStep_conn_ne {s : HubState} {t U : String} {tc : Client} (snd d : String)
    (htc : alookup t s.userMap = some tc) (hne : U ≠ t) :
    bufOf (sfuOfferStep s t snd d).1 U = bufOf s U := by
  have hum : alookup t (ensureICEBuffer s t).userMap = some tc := by
    rw [ensureICEBuffer_userMap]; exact htc
  have hens := bufOf_ensure s t U
  unfold bufOf at hens ⊢
  simp [sfuOfferStep, hum, blockingSend, flushICE, bufOf_lookup_ensure,
    alookup_aset_self, alookup_aset_ne hne, hens]

theorem sfuOfferStep_off {s : HubState} {t : String} (snd d : String)
    (htc : alookup t s.userMap = none) :
    (sfuOfferStep s t snd d).2 = [] ∧
    bufOf (sfuOfferStep s t snd d).1 t =
      { bufOf s t with pendingOffer := some (WireMsg.offer t snd d) } := by
  have hum : alookup t (ensureICEBuffer s t).userMap = none := by
    rw [ensureICEBuffer_userMap]; exact htc
  constructor
  · simp [sfuOfferStep, hum]
  · simp [sfuOfferStep, hum, bufOf, alookup_aset_self, bufOf_lookup_ensure, bufOf_ensure]

theorem sfuOfferStep_off_ne {s : HubState} {t U : String} (snd d : String)
    (htc : alookup t s.userMap = none) (hne : U ≠ t) :
    bufOf (sfuOfferStep s t snd d).1 U = bufOf s U := by
  have hum : alookup t (ensureICEBuffer s t).userMap = none := by
    rw [ensureICEBuffer_userMap]; exact htc
  have hens := bufOf_ensure s t U
  unfold bufOf at hens ⊢
  simp [sfuOfferStep, hum, alookup_aset_ne hne, hens]

theorem descSent_false_elim {s : HubState} {t : String} (h : descSent s t = false) :
    (bufOf s t).offerSent = false ∧ (bufOf s t).answerSent = false := by
  unfold descSent at h
  exact ⟨(Bool.or_eq_false_iff.1 h).1, (Bool.or_eq_false_iff.1 h).2⟩

theorem sfuIceStep_buffered {s : HubState} {t : String} {tc : Client} (snd d : String)
    (htc : alookup t s.userMap = some tc) (hfl : descSent s t = false) :
    (sfuIceStep s t snd d).2 = [] ∧
    bufOf (sfuIceStep s t snd d).1 t =
      { bufOf s t with candidates := (bufOf s t).candidates ++ [d] } := by
  have hum : alookup t (ensureICEBuffer s t).userMap = some tc := by
    rw [ensureICEBuffer_userMap]; exact htc
  obtain ⟨ho, ha⟩ := descSent_false_elim hfl
  unfold bufOf at ho ha
  constructor
  · simp [sfuIceStep, hum, bufOf, bufOf_lookup_ensure, bufOf_ensure, ho, ha]
  · simp [sfuIceStep, hum, bufOf, bufOf_lookup_ensure, bufOf_ensure, ho, ha,
      alookup_aset_self]

theorem sfuIceStep_fwd {s : HubState} {t : String} {tc : Client} (snd d : String)
    (htc : alookup t s.userMap = some tc) (hfl : descSent s t = true) :
    (sfuIceStep s t snd d).2 = [Out.send t tc.cid (WireMsg.ice t snd d) Mode.blocking] ∧
    ∀ V, bufOf (sfuIceStep s t snd d).1 V = bufOf s V := by
  have hum : alookup t (ensureICEBuffer s t).userMap = some tc := by
    rw [ensureICEBuffer_userMap]; exact htc
  have hcond : (!(bufOf s t).offerSent && !(bufOf s t).answerSent) = false := by
    unfold descSent at hfl
    rcases Bool.or_eq_true_iff.1 hfl with h | h <;> simp [h]
  have hcg : (!(bufOf (ensureICEBuffer s t) t).offerSent &&
      !(bufOf (ensureICEBuffer s t) t).answerSent) = false := by
    rw [bufOf_ensure]; exact hcond
  constructor
  · simp [sfuIceStep, hum, hcg, blockingSend]
  · intro V
    simp only [sfuIceStep, hum, hcg, Bool.false_eq_true, if_false, blockingSend]
    exact (bufOf_congr rfl V).trans (bufOf_ensure s t V)

theorem sfuIceStep_off {s : HubState} {t : String} (snd d : String)
    (htc : alookup t s.userMap = none) :
    (sfuIceStep s t snd d).2 = [] ∧
    bufOf (sfuIceStep s t snd d).1 t =
      { bufOf s t with candidates := (bufOf s t).candidates ++ [d] } := by
  have hum : alookup t (ensureICEBuffer s t).userMap = none := by
    rw [ensureICEBuffer_userMap]; exact htc
  constructor
  · simp [sfuIceStep, hum]
  · simp [sfuIceStep, hum, bufOf, bufOf_lookup_ensure, bufOf_ensure, alookup_aset_self]

theorem sfuIceStep_bufOf_ne {s : HubState} {t U : String} (snd d : String) (hne : U ≠ t) :
    bufOf (sfuIceStep s t snd d).1 U = bufOf s U := by
  have hens := bufOf_ensure s t U
  unfold bufOf at hens ⊢
  rcases htc : alookup t (ensureICEBuffer s t).userMap with _ | tc
  · simp [sfuIceStep, htc, alookup_aset_ne hne, hens]
  · by_cases hcond :
      (!(bufOf (ensureICEBuffer s t) t).offerSent &&
        !(bufOf (ensureICEBuffer s t) t).answerSent) = true
    · simp [sfuIceStep, htc, hcond, alookup_aset_ne hne, hens]
    · simp [sfuIceStep, htc, Bool.not_eq_true _ ▸ hcond, blockingSend, hens]

theorem sfuOtherStep_outs (s : HubState) (t snd d : String) :
    (sfuOtherStep s t snd d).2 = [] ∨
    ∃ tc, alookup t s.userMap = some tc ∧
      (sfuOtherStep s t snd d).2 = [Out.send t tc.cid (WireMsg.other t snd d) Mode.blocking] := by
  unfold sfuOtherStep
  rcases htc : alookup t s.userMap with _ | tc
  · exact Or.inl rfl
  · exact Or.inr ⟨tc, rfl, by simp [blockingSend]⟩

theorem bJoinStep_nosfu {s : HubState} {c : Client} (hsfu : s.sfuClient = none) :
    bJoinStep s c = (s, []) := by
  simp [bJoinStep, hsfu]

theorem bJoinStep_nopending {s : HubState} {c : Client} {sfu : Client}
    (hsfu : s.sfuClient = some sfu) (hpo : (bufOf s c.userID).pendingOffer = none) :
    (bJoinStep s c).2 = [Out.sendSFU (WireMsg.connectReq c.userID c.projectID)] ∧
    ∀ V, bufOf (bJoinStep s c).1 V = bufOf s V := by
  have hpo2 : (bufOf (ensureICEBuffer s c.userID) c.userID).pendingOffer = none := by
    rw [bufOf_ensure]; exact hpo
  constructor
  · simp [bJoinStep, hsfu, hpo2, blockingSendSFU]
  · intro V
    simp only [bJoinStep, hsfu, hpo2, blockingSendSFU]
    exact (bufOf_congr rfl V).trans (bufOf_ensure s c.userID V)

theorem bJoinStep_pending {s : HubState} {c : Client} {sfu : Client} {po : WireMsg}
    (hsfu : s.sfuClient = some sfu) (hpo : (bufOf s c.userID).pendingOffer = some po) :
    (bJoinStep s c).2 =
      Out.send c.userID c.cid po Mode.blocking ::
        (flushMsgs c.userID c (bufOf s c.userID).candidates ++
          [Out.sendSFU (WireMsg.connectReq c.userID c.projectID)]) ∧
    bufOf (bJoinStep s c).1 c.userID =
      { bufOf s c.userID with offerSent := true, pendingOffer := none, candidates := [] } := by
  have hpo2 := hpo
  unfold bufOf at hpo2
  constructor
  · simp [bJoinStep, hsfu, bufOf_ensure, bufOf_lookup_ensure, hpo2, blockingSendSFU,
      blockingSend, flushICE, alookup_aset_self, flushMsgs, bufOf]
  · simp [bJoinStep, hsfu, bufOf_ensure, bufOf_lookup_ensure, hpo2, blockingSendSFU,
      blockingSend, flushICE, alookup_aset_self, bufOf]

theorem bJoinStep_bufOf_ne {s : HubState} {c : Client} {U : String} (hne : U ≠ c.userID) :
    bufOf (bJoinStep s c).1 U = bufOf s U := by
  have hens := bufOf_ensure s c.userID U
  unfold bufOf at hens ⊢
  rcases hsfu : s.sfuClient with _ | sfu
  · simp [bJoinStep, hsfu]
  · rcases hpo : (bufOf (ensureICEBuffer s c.userID) c.userID).pendingOffer with _ | po
    · simp [bJoinStep, hsfu, hpo, blockingSendSFU, hens]
    · simp [bJoinStep, hsfu, hpo, blockingSendSFU, blockingSend, flushICE,
        alookup_aset_self, alookup_aset_ne hne, hens]

theorem bAnswerStep_nosfu {s : HubState} {c : Client} (pS pD : String)
    (hsfu : s.sfuClient = none) : bAnswerStep s c pS pD = (s, []) := by
  simp [bAnswerStep, hsfu]

theorem bAnswerStep_conn {s : HubState} {c : Client} {pS : String} {sfu tc : Client}
    (pD : String) (hsfu : s.sfuClient = some sfu) (htc : alookup pS s.userMap = some tc) :
    (bAnswerStep s c pS pD).2 =
      Out.sendSFU (WireMsg.answerToSFU c.userID pD) ::
        flushMsgs pS tc (bufOf s pS).candidates ∧
    bufOf (bAnswerStep s c pS pD).1 pS =
      { bufOf s pS with answerSent := true, candidates := [] } := by
  constructor
  · simp [bAnswerStep, hsfu, htc, bufOf_ensure, bufOf_lookup_ensure, blockingSendSFU,
      flushICE, alookup_aset_self, ensureICEBuffer_userMap, flushMsgs, bufOf]
  · simp [bAnswerStep, hsfu, htc, bufOf_ensure, bufOf_lookup_ensure, blockingSendSFU,
      flushICE, alookup_aset_self, ensureICEBuffer_userMap, bufOf]

theorem bAnswerStep_off {s : HubState} {c : Client} {pS : String} {sfu : Client}
    (pD : String) (hsfu : s.sfuClient = some sfu) (htc : alookup pS s.userMap = none) :
    (bAnswerStep s c pS pD).2 = [Out.sendSFU (WireMsg.answerToSFU c.userID pD)] ∧
    bufOf (bAnswerStep s c pS pD).1 pS =
      { bufOf s pS with answerSent := true, candidates := [] } := by
  constructor
  · simp [bAnswerStep, hsfu, htc, bufOf_ensure, bufOf_lookup_ensure, blockingSendSFU,
      flushICE, alookup_aset_self, ensureICEBuffer_userMap]
  · simp [bAnswerStep, hsfu, htc, bufOf_ensure, bufOf_lookup_ensure, blockingSendSFU,
      flushICE, alookup_aset_self, ensureICEBuffer_userMap, bufOf]

theorem bAnswerStep_bufOf_ne {s : HubState} {c : Client} {pS U : String} (pD : String)
    (hne : U ≠ pS) : bufOf (bAnswerStep s c pS pD).1 U = bufOf s U := by
  have hens := bufOf_ensure s pS U
  unfold bufOf at hens ⊢
  rcases hsfu : s.sfuClient with _ | sfu
  · simp [bAnswerStep, hsfu]
  · rcases htc : alookup pS s.userMap with _ | tc <;>
      simp [bAnswerStep, hsfu, blockingSendSFU, flushICE, alookup_aset_self,
        alookup_aset_ne hne, ensureICEBuffer_userMap, htc, hens]

theorem bIceStep_nosfu {s : HubState} {c : Client} (pS pD : String)
    (hsfu : s.sfuClient = none) : bIceStep s c pS pD = (s, []) := by
  simp [bIceStep, hsfu]

theorem bIceStep_buffered {s : HubState} {c : Client} {pS : String} {sfu : Client}
    (pD : String) (hsfu : s.sfuClient = some sfu) (hfl : descSent s pS = false) :
    (bIceStep s c pS pD).2 = [] ∧
    bufOf (bIceStep s c pS pD).1 pS =
      { bufOf s pS with candidates := (bufOf s pS).candidates ++ [pD] } := by
  obtain ⟨ho, ha⟩ := descSent_false_elim hfl
  unfold bufOf at ho ha
  constructor
  · simp [bIceStep, hsfu, bufOf, bufOf_lookup_ensure, bufOf_ensure, ho, ha]
  · simp [bIceStep, hsfu, bufOf, bufOf_lookup_ensure, bufOf_ensure, ho, ha,
      alookup_aset_self]

theorem bIceStep_fwd {s : HubState} {c : Client} {pS : String} {sfu : Client}
    (pD : String) (hsfu : s.sfuClient = some sfu) (hfl : descSent s pS = true) :
    (bIceStep s c pS pD).2 = [Out.sendSFU (WireMsg.iceToSFU c.userID pD)] ∧
    ∀ V, bufOf (bIceStep s c pS pD).1 V = bufOf s V := by
  have hcond : (!(bufOf s pS).offerSent && !(bufOf s pS).answerSent) = false := by
    unfold descSent at hfl
    rcases Bool.or_eq_true_iff.1 hfl with h | h <;> simp [h]
  have hcg : (!(bufOf (ensureICEBuffer s pS) pS).offerSent &&
      !(bufOf (ensureICEBuffer s pS) pS).answerSent) = false := by
    rw [bufOf_ensure]; exact hcond
  constructor
  · simp [bIceStep, hsfu, hcg, blockingSendSFU]
  · intro V
    simp only [bIceStep, hsfu, hcg, Bool.false_eq_true, if_false, blockingSendSFU]
    exact (bufOf_congr rfl V).trans (bufOf_ensure s pS V)

theorem bIceStep_bufOf_ne {s : HubState} {c : Client} {pS U : String} (pD : String)
    (hne : U ≠ pS) : bufOf (bIceStep s c pS pD).1 U = bufOf s U := by
  have hens := bufOf_ensure s pS U
  unfold bufOf at hens ⊢
  rcases hsfu : s.sfuClient with _ | sfu
  · simp [bIceStep, hsfu]
  · by_cases hcond :
      (!(bufOf (ensureICEBuffer s pS) pS).offerSent &&
        !(bufOf (ensureICEBuffer s pS) pS).answerSent) = true
    · simp [bIceStep, hsfu, hcond, alookup_aset_ne hne, hens]
    · simp [bIceStep, hsfu, Bool.not_eq_true _ ▸ hcond, blockingSendSFU, hens]

theorem registerStep_iceBuffers (s : HubState) (c : Client) :
    (registerStep s c).1.iceBuffers = s.iceBuffers := by
  simp only [registerStep]
  split
  · split <;> rfl
  · split <;> simp [broadcastPresence_iceBuffers]

theorem unregisterRoom_iceBuffers (s : HubState) (c : Client) :
    (unregisterRoom s c).1.iceBuffers = s.iceBuffers := by
  simp only [unregisterRoom]
  rcases hroom : alookup c.projectID s.clients with _ | room
  · rfl
  · rcases hcc : alookup c.userID room with _ | cc
    · simp only [hcc]
      split <;> simp [broadcastPresence_iceBuffers]
    · simp only [hcc]
      by_cases hcid : cc.cid = c.cid
      · simp only [hcid, if_true]
        rcases hsfu : s.sfuClient with _ | sc <;> simp only [hsfu] <;>
          split <;> simp [broadcastPresence_iceBuffers]
      · simp only [hcid, if_false]
        split <;> simp [broadcastPresence_iceBuffers]

theorem unregisterStep_iceBuffers (s : HubState) (c : Client) :
    (unregisterStep s c).1.iceBuffers = s.iceBuffers := by
  simp only [unregisterStep]
  split
  · split
    · rfl
    · exact unregisterRoom_iceBuffers s c
  · exact unregisterRoom_iceBuffers s c

theorem bGenericStep_iceBuffers (s : HubState) (c : Client) (pid d : String) :
    (bGenericStep s c pid d).1.iceBuffers = s.iceBuffers := by
  simp only [bGenericStep]
  split
  · rfl
  · exact (fanFold_misc _ _ _ _ _ _).1

theorem iceDataTo_flushMsgs_self (U : String) (tc : Client) (l : List String) :
    iceDataTo U (flushMsgs U tc l) = l := by
  unfold iceDataTo flushMsgs
  rw [List.filterMap_map]
  have : (iceOutData U ∘ fun cd =>
      Out.send U tc.cid (WireMsg.ice U "sfu" cd) Mode.blocking) = some := by
    funext cd
    simp [iceOutData]
  rw [this, List.filterMap_some]

theorem iceDataTo_flushMsgs_ne {t U : String} (tc : Client) (l : List String)
    (hne : t ≠ U) : iceDataTo U (flushMsgs t tc l) = [] := by
  unfold iceDataTo flushMsgs
  rw [List.filterMap_map, List.filterMap_eq_nil_iff]
  intro cd _
  simp [iceOutData, Function.comp, hne]

theorem presenceFold_no_ice (U : String) (us : List (String × String))
    (room : List (String × Client)) :
    ∀ (s : HubState) (outs : List Out), (∀ x ∈ outs, iceOutData U x = none) →
      ∀ x ∈ (room.foldl (presenceStepOne us) (s, outs)).2, iceOutData U x = none := by
  induction room with
  | nil => intro s outs h x hx; exact h x hx
  | cons p rest ih =>
    intro s outs h x hx
    rw [List.foldl_cons] at hx
    by_cases hq : qFull p.2.cid s.queues = true
    · rw [show presenceStepOne us (s, outs) p = (s, outs ++ [Out.presenceDrop p.1 p.2.cid]) by
        unfold presenceStepOne; simp [hq]] at hx
      refine ih s _ ?_ x hx
      intro y hy
      rcases List.mem_append.1 hy with hh | hh
      · exact h y hh
      · rw [List.mem_singleton] at hh
        subst hh; rfl
    · rw [show presenceStepOne us (s, outs) p =
          ({ s with queues := qBump p.2.cid s.queues },
            outs ++ [Out.send p.1 p.2.cid (WireMsg.presence us) Mode.tryPresence]) by
        unfold presenceStepOne; simp [hq]] at hx
      refine ih _ _ ?_ x hx
      intro y hy
      rcases List.mem_append.1 hy with hh | hh
      · exact h y hh
      · rw [List.mem_singleton] at hh
        subst hh; rfl

theorem broadcastPresence_no_ice (U : String) (s : HubState) (pid : String) :
    ∀ x ∈ (broadcastPresence s pid).2, iceOutData U x = none := by
  unfold broadcastPresence
  split
  · intro x hx; simp at hx
  · exact presenceFold_no_ice U _ _ s [] (by intro y hy; simp at hy)

theorem fanFold_no_ice (U : String) (sender : Client) (data pid : String)
    (room : List (String × Client)) :
    ∀ (s : HubState) (outs : List Out), (∀ x ∈ outs, iceOutData U x = none) →
      ∀ x ∈ (room.foldl (fanStepOne sender data pid) (s, outs)).2, iceOutData U x = none := by
  induction room with
  | nil => intro s outs h x hx; exact h x hx
  | cons p rest ih =>
    intro s outs h x hx
    rw [List.foldl_cons] at hx
    by_cases h1 : p.2.cid = sender.cid
    · rw [fanStepOne_skip h1] at hx
      exact ih s outs h x hx
    · by_cases h2 : qFull p.2.cid s.queues = true
      · rw [fanStepOne_evict h1 h2] at hx
        refine ih _ _ ?_ x hx
        intro y hy
        rcases List.mem_append.1 hy with hh | hh
        · exact h y hh
        · rw [List.mem_singleton] at hh
          subst hh; rfl
      · rw [fanStepOne_send h1 (Bool.not_eq_true _ ▸ h2)] at hx
        refine ih _ _ ?_ x hx
        intro y hy
        rcases List.mem_append.1 hy with hh | hh
        · exact h y hh
        · rw [List.mem_singleton] at hh
          subst hh; rfl

theorem registerStep_no_ice (U : String) (s : HubState) (c : Client) :
    ∀ x ∈ (registerStep s c).2, iceOutData U x = none := by
  simp only [registerStep]
  split
  · split <;> intro x hx
    · simp only [List.mem_singleton] at hx; subst hx; rfl
    · simp at hx
  · split <;> intro x hx <;> rcases List.mem_append.1 hx with hh | hh
    · rw [List.mem_singleton] at hh; subst hh; rfl
    · exact broadcastPresence_no_ice U _ _ x hh
    · simp at hh
    · exact broadcastPresence_no_ice U _ _ x hh

theorem unregisterRoom_no_ice (U : String) (s : HubState) (c : Client) :
    ∀ x ∈ (unregisterRoom s c).2, iceOutData U x = none := by
  simp only [unregisterRoom]
  rcases hroom : alookup c.projectID s.clients with _ | room
  · intro x hx; simp at hx
  · rcases hcc : alookup c.userID room with _ | cc
    · simp only [hcc]
      split
      · intro x hx; simp at hx
      · intro x hx; exact broadcastPresence_no_ice U _ _ x hx
    · simp only [hcc]
      by_cases hcid : cc.cid = c.cid
      · simp only [hcid, if_true]
        rcases hsfu : s.sfuClient with _ | sc
        · simp only [hsfu]
          split
          · intro x hx
            simp only [List.mem_singleton] at hx
            subst hx; rfl
          · intro x hx
            rcases List.mem_append.1 hx with hh | hh
            · simp only [List.mem_singleton] at hh
              subst hh; rfl
            · exact broadcastPresence_no_ice U _ _ x hh
        · simp only [hsfu]
          split
          · intro x hx
            simp only [List.mem_cons, List.mem_singleton, List.not_mem_nil, or_false] at hx
            rcases hx with hh | hh <;> subst hh <;> rfl
          · intro x hx
            rcases List.mem_append.1 hx with hh | hh
            · simp only [List.mem_cons, List.mem_singleton, List.not_mem_nil, or_false] at hh
              rcases hh with hh | hh <;> subst hh <;> rfl
            · exact broadcastPresence_no_ice U _ _ x hh
      · simp only [hcid, if_false]
        split
        · intro x hx; simp at hx
        · intro x hx; exact broadcastPresence_no_ice U _ _ x hx

theorem unregisterStep_no_ice (U : String) (s : HubState) (c : Client) :
    ∀ x ∈ (unregisterStep s c).2, iceOutData U x = none := by
  simp only [unregisterStep]
  split
  · split
    · intro x hx; simp at hx
    · exact unregisterRoom_no_ice U s c
  · exact unregisterRoom_no_ice U s c

theorem bGenericStep_no_ice (U : String) (s : HubState) (c : Client) (pid d : String) :
    ∀ x ∈ (bGenericStep s c pid d).2, iceOutData U x = none := by
  simp only [bGenericStep]
  split
  · intro x hx; simp at hx
  · exact fanFold_no_ice U _ _ _ _ s [] (by intro y hy; simp at hy)

theorem descSent_congr {s t : HubState} (h : s.iceBuffers = t.iceBuffers) (U : String) :
    descSent s U = descSent t U := by
  unfold descSent
  rw [bufOf_congr h U]

theorem descSent_mono (s : HubState) (e : Event) (U : String)
    (h : descSent s U = true) : descSent (hubStep s e).1 U = true := by
  cases e with
  | register c =>
    rw [show hubStep s (Event.register c) = registerStep s c from rfl,
      descSent_congr (registerStep_iceBuffers s c) U]
    exact h
  | unregister c =>
    rw [show hubStep s (Event.unregister c) = unregisterStep s c from rfl,
      descSent_congr (unregisterStep_iceBuffers s c) U]
    exact h
  | bGeneric c pid d =>
    rw [show hubStep s (Event.bGeneric c pid d) = bGenericStep s c pid d from rfl,
      descSent_congr (bGenericStep_iceBuffers s c pid d) U]
    exact h
  | sfuOther t snd d =>
    rw [show hubStep s (Event.sfuOther t snd d) = sfuOtherStep s t snd d from rfl,
      descSent_congr (sfuOtherStep_iceBuffers s t snd d) U]
    exact h
  | sfuOffer t snd d =>
    rw [show hubStep s (Event.sfuOffer t snd d) = sfuOfferStep s t snd d from rfl]
    by_cases hU : U = t
    · subst hU
      rcases htc : alookup U s.userMap with _ | tc
      · unfold descSent
        rw [(sfuOfferStep_off snd d htc).2]
        unfold descSent at h
        exact h
      · unfold descSent
        rw [(sfuOfferStep_conn snd d htc).2]
        simp
    · rcases htc : alookup t s.userMap with _ | tc
      · unfold descSent
        rw [sfuOfferStep_off_ne snd d htc hU]
        exact h
      · unfold descSent
        rw [sfuOfferStep_conn_ne snd d htc hU]
        exact h
  | sfuIce t snd d =>
    rw [show hubStep s (Event.sfuIce t snd d) = sfuIceStep s t snd d from rfl]
    by_cases hU : U = t
    · subst hU
      rcases htc : alookup U s.userMap with _ | tc
      · unfold descSent
        rw [(sfuIceStep_off snd d htc).2]
        unfold descSent at h
        exact h
      · unfold descSent
        rw [((sfuIceStep_fwd snd d htc h).2) U]
        unfold descSent at h
        exact h
    · unfold descSent
      rw [sfuIceStep_bufOf_ne snd d hU]
      exact h
  | bJoin c =>
    rw [show hubStep s (Event.bJoin c) = bJoinStep s c from rfl]
    by_cases hU : U = c.userID
    · subst hU
      rcases hsfu : s.sfuClient with _ | sfu
      · rw [bJoinStep_nosfu hsfu]
        exact h
      · rcases hpo : (bufOf s c.userID).pendingOffer with _ | po
        · unfold descSent
          rw [(bJoinStep_nopending hsfu hpo).2 c.userID]
          unfold descSent at h
          exact h
        · unfold descSent
          rw [(bJoinStep_pending hsfu hpo).2]
          simp
    · rw [show descSent (bJoinStep s c).1 U =
          ((bufOf (bJoinStep s c).1 U).offerSent || (bufOf (bJoinStep s c).1 U).answerSent)
          from rfl, bJoinStep_bufOf_ne hU]
      exact h
  | bAnswer c pS pD =>
    rw [show hubStep s (Event.bAnswer c pS pD) = bAnswerStep s c pS pD from rfl]
    by_cases hU : U = pS
    · subst hU
      rcases hsfu : s.sfuClient with _ | sfu
      · rw [bAnswerStep_nosfu U pD hsfu]
        exact h
      · rcases htc : alookup U s.userMap with _ | tc
        · unfold descSent
          rw [(bAnswerStep_off pD hsfu htc).2]
          simp
        · unfold descSent
          rw [(bAnswerStep_conn pD hsfu htc).2]
          simp
    · unfold descSent
      rw [bAnswerStep_bufOf_ne pD hU]
      exact h
  | bIce c pS pD =>
    rw [show hubStep s (Event.bIce c pS pD) = bIceStep s c pS pD from rfl]
    by_cases hU : U = pS
    · subst hU
      rcases hsfu : s.sfuClient with _ | sfu
      · rw [bIceStep_nosfu U pD hsfu]
        exact h
      · rcases hfl : descSent s U with _ | _
        · unfold descSent at hfl h
          rw [h] at hfl
          exact absurd hfl (by simp)
        · unfold descSent
          rw [(bIceStep_fwd pD hsfu hfl).2 U]
          unfold descSent at h
          exact h
    · unfold descSent
      rw [bIceStep_bufOf_ne pD hU]
      exact h

/-- Every stored pending offer is an offer envelope, never an ICE candidate
message (the source only ever assigns the raw webrtc_offer bytes to it). -/
def PendingNotIce (s : HubState) : Prop :=
  ∀ V a b dd, (bufOf s V).pendingOffer ≠ some (WireMsg.ice a b dd)

theorem pendingNotIce_step {s : HubState} (e : Event) (h : PendingNotIce s) :
    PendingNotIce (hubStep s e).1 := by
  cases e with
  | register c =>
    intro V a b dd
    rw [show hubStep s (Event.register c) = registerStep s c from rfl,
      bufOf_congr (registerStep_iceBuffers s c) V]
    exact h V a b dd
  | unregister c =>
    intro V a b dd
    rw [show hubStep s (Event.unregister c) = unregisterStep s c from rfl,
      bufOf_congr (unregisterStep_iceBuffers s c) V]
    exact h V a b dd
  | bGeneric c pid d =>
    intro V a b dd
    rw [show hubStep s (Event.bGeneric c pid d) = bGenericStep s c pid d from rfl,
      bufOf_congr (bGenericStep_iceBuffers s c pid d) V]
    exact h V a b dd
  | sfuOther t snd d =>
    intro V a b dd
    rw [show hubStep s (Event.sfuOther t snd d) = sfuOtherStep s t snd d from rfl,
      bufOf_congr (sfuOtherStep_iceBuffers s t snd d) V]
    exact h V a b dd
  | sfuOffer t snd d =>
    intro V a b dd
    rw [show hubStep s (Event.sfuOffer t snd d) = sfuOfferStep s t snd d from rfl]
    by_cases hV : V = t
    · subst hV
      rcases htc : alookup V s.userMap with _ | tc
      · rw [(sfuOfferStep_off snd d htc).2]
        simp
      · rw [(sfuOfferStep_conn snd d htc).2]
        exact h V a b dd
    · rcases htc : alookup t s.userMap with _ | tc
      · rw [sfuOfferStep_off_ne snd d htc hV]
        exact h V a b dd
      · rw [sfuOfferStep_conn_ne snd d htc hV]
        exact h V a b dd
  | sfuIce t snd d =>
    intro V a b dd
    rw [show hubStep s (Event.sfuIce t snd d) = sfuIceStep s t snd d from rfl]
    by_cases hV : V = t
    · subst hV
      rcases htc : alookup V s.userMap with _ | tc
      · rw [(sfuIceStep_off snd d htc).2]
        exact h V a b dd
      · rcases hfl : descSent s V with _ | _
        · rw [(sfuIceStep_buffered snd d htc hfl).2]
          exact h V a b dd
        · rw [(sfuIceStep_fwd snd d htc hfl).2 V]
          exact h V a b dd
    · rw [sfuIceStep_bufOf_ne snd d hV]
      exact h V a b dd
  | bJoin c =>
    intro V a b dd
    rw [show hubStep s (Event.bJoin c) = bJoinStep s c from rfl]
    by_cases hV : V = c.userID
    · subst hV
      rcases hsfu : s.sfuClient with _ | sfu
      · rw [bJoinStep_nosfu hsfu]
        exact h c.userID a b dd
      · rcases hpo : (bufOf s c.userID).pendingOffer with _ | po
        · rw [(bJoinStep_nopending hsfu hpo).2 c.userID]
          exact h c.userID a b dd
        · rw [(bJoinStep_pending hsfu hpo).2]
          simp
    · rw [bJoinStep_bufOf_ne hV]
      exact h V a b dd
  | bAnswer c pS pD =>
    intro V a b dd
    rw [show hubStep s (Event.bAnswer c pS pD) = bAnswerStep s c pS pD from rfl]
    by_cases hV : V = pS
    · subst hV
      rcases hsfu : s.sfuClient with _ | sfu
      · rw [bAnswerStep_nosfu V pD hsfu]
        exact h V a b dd
      · rcases htc : alookup V s.userMap with _ | tc
        · rw [(bAnswerStep_off pD hsfu htc).2]
          exact h V a b dd
        · rw [(bAnswerStep_conn pD hsfu htc).2]
          exact h V a b dd
    · rw [bAnswerStep_bufOf_ne pD hV]
      exact h V a b dd
  | bIce c pS pD =>
    intro V a b dd
    rw [show hubStep s (Event.bIce c pS pD) = bIceStep s c pS pD from rfl]
    by_cases hV : V = pS
    · subst hV
      rcases hsfu : s.sfuClient with _ | sfu
      · rw [bIceStep_nosfu V pD hsfu]
        exact h V a b dd
      · rcases hfl : descSent s V with _ | _
        · rw [(bIceStep_buffered pD hsfu hfl).2]
          exact h V a b dd
        · rw [(bIceStep_fwd pD hsfu hfl).2 V]
          exact h V a b dd
    · rw [bIceStep_bufOf_ne pD hV]
      exact h V a b dd

theorem iceOutData_send_ne {U uid : String} (cid : Nat) (m : WireMsg) (mo : Mode)
    (h : uid ≠ U) : iceOutData U (Out.send uid cid m mo) = none := by
  cases m <;> simp [iceOutData, h]

theorem iceOutData_send_notice {U uid : String} (cid : Nat) (po : WireMsg) (mo : Mode)
    (h : ∀ a b dd, po ≠ WireMsg.ice a b dd) :
    iceOutData U (Out.send uid cid po mo) = none := by
  cases po <;> first | rfl | (exact absurd rfl (h _ _ _))

theorem hubRun_cons (s : HubState) (e : Event) (es : List Event) :
    hubRun s (e :: es) =
      ((hubRun (hubStep s e).1 es).1, (hubStep s e).2 ++ (hubRun (hubStep s e).1 es).2) := rfl

theorem step_no_early (s : HubState) (e : Event) (U : String)
    (h : descSent (hubStep s e).1 U = false) : iceDataTo U (hubStep s e).2 = [] := by
  cases e with
  | register c => exact List.filterMap_eq_nil_iff.2 (registerStep_no_ice U s c)
  | unregister c => exact List.filterMap_eq_nil_iff.2 (unregisterStep_no_ice U s c)
  | bGeneric c pid d => exact List.filterMap_eq_nil_iff.2 (bGenericStep_no_ice U s c pid d)
  | sfuOther t snd d =>
    rcases sfuOtherStep_outs s t snd d with ho | ⟨tc, _, ho⟩
    · unfold iceDataTo
      rw [show (hubStep s (Event.sfuOther t snd d)).2 = (sfuOtherStep s t snd d).2 from rfl, ho]
      rfl
    · unfold iceDataTo
      rw [show (hubStep s (Event.sfuOther t snd d)).2 = (sfuOtherStep s t snd d).2 from rfl, ho]
      rfl
  | sfuOffer t snd d =>
    rw [show (hubStep s (Event.sfuOffer t snd d)).2 = (sfuOfferStep s t snd d).2 from rfl]
    by_cases hU : U = t
    · subst hU
      rcases htc : alookup U s.userMap with _ | tc
      · unfold iceDataTo
        rw [(sfuOfferStep_off snd d htc).1]
        rfl
      · exfalso
        unfold descSent at h
        rw [show (hubStep s (Event.sfuOffer U snd d)).1 = (sfuOfferStep s U snd d).1 from rfl,
          (sfuOfferStep_conn snd d htc).2] at h
        simp at h
    · rcases htc : alookup t s.userMap with _ | tc
      · unfold iceDataTo
        rw [(sfuOfferStep_off snd d htc).1]
        rfl
      · unfold iceDataTo
        rw [(sfuOfferStep_conn snd d htc).1, List.filterMap_cons,
          iceOutData_send_ne _ _ _ (Ne.symm hU)]
        exact iceDataTo_flushMsgs_ne tc _ (Ne.symm hU)
  | sfuIce t snd d =>
    rw [show (hubStep s (Event.sfuIce t snd d)).2 = (sfuIceStep s t snd d).2 from rfl]
    rcases htc : alookup t s.userMap with _ | tc
    · unfold iceDataTo
      rw [(sfuIceStep_off snd d htc).1]
      rfl
    · rcases hfl : descSent s t with _ | _
      · unfold iceDataTo
        rw [(sfuIceStep_buffered snd d htc hfl).1]
        rfl
      · by_cases hU : U = t
        · subst hU
          exfalso
          unfold descSent at h hfl
          rw [show (hubStep s (Event.sfuIce U snd d)).1 = (sfuIceStep s U snd d).1 from rfl,
            (sfuIceStep_fwd snd d htc hfl).2 U] at h
          rw [h] at hfl
          simp at hfl
        · unfold iceDataTo
          rw [(sfuIceStep_fwd snd d htc hfl).1, List.filterMap_cons,
            iceOutData_send_ne _ _ _ (Ne.symm hU)]
          rfl
  | bJoin c =>
    rw [show (hubStep s (Event.bJoin c)).2 = (bJoinStep s c).2 from rfl]
    rcases hsfu : s.sfuClient with _ | sfu
    · rw [bJoinStep_nosfu hsfu]
      rfl
    · rcases hpo : (bufOf s c.userID).pendingOffer with _ | po
      · unfold iceDataTo
        rw [(bJoinStep_nopending hsfu hpo).1]
        rfl
      · by_cases hU : U = c.userID
        · subst hU
          exfalso
          unfold descSent at h
          rw [show (hubStep s (Event.bJoin c)).1 = (bJoinStep s c).1 from rfl,
            (bJoinStep_pending hsfu hpo).2] at h
          simp at h
        · unfold iceDataTo
          rw [(bJoinStep_pending hsfu hpo).1, List.filterMap_cons,
            iceOutData_send_ne _ _ _ (Ne.symm hU), List.filterMap_append]
          rw [show List.filterMap (iceOutData U) (flushMsgs c.userID c
              (bufOf s c.userID).candidates) = iceDataTo U (flushMsgs c.userID c
              (bufOf s c.userID).candidates) from rfl,
            iceDataTo_flushMsgs_ne c _ (Ne.symm hU)]
          rfl
  | bAnswer c pS pD =>
    rw [show (hubStep s (Event.bAnswer c pS pD)).2 = (bAnswerStep s c pS pD).2 from rfl]
    rcases hsfu : s.sfuClient with _ | sfu
    · rw [bAnswerStep_nosfu pS pD hsfu]
      rfl
    · by_cases hU : U = pS
      · subst hU
        exfalso
        unfold descSent at h
        rcases htc : alookup U s.userMap with _ | tc
        · rw [show (hubStep s (Event.bAnswer c U pD)).1 = (bAnswerStep s c U pD).1 from rfl,
            (bAnswerStep_off pD hsfu htc).2] at h
          simp at h
        · rw [show (hubStep s (Event.bAnswer c U pD)).1 = (bAnswerStep s c U pD).1 from rfl,
            (bAnswerStep_conn pD hsfu htc).2] at h
          simp at h
      · rcases htc : alookup pS s.userMap with _ | tc
        · unfold iceDataTo
          rw [(bAnswerStep_off pD hsfu htc).1]
          rfl
        · unfold iceDataTo
          rw [(bAnswerStep_conn pD hsfu htc).1, List.filterMap_cons]
          rw [show iceOutData U (Out.sendSFU (WireMsg.answerToSFU c.userID pD)) = none
            from rfl]
          exact iceDataTo_flushMsgs_ne tc _ (Ne.symm hU)
  | bIce c pS pD =>
    rw [show (hubStep s (Event.bIce c pS pD)).2 = (bIceStep s c pS pD).2 from rfl]
    rcases hsfu : s.sfuClient with _ | sfu
    · rw [bIceStep_nosfu pS pD hsfu]
      rfl
    · rcases hfl : descSent s pS with _ | _
      · unfold iceDataTo
        rw [(bIceStep_buffered pD hsfu hfl).1]
        rfl
      · unfold iceDataTo
        rw [(bIceStep_fwd pD hsfu hfl).1]
        rfl

theorem step_count (s : HubState) (e : Event) (U d : String) (hpni : PendingNotIce s) :
    (iceDataTo U (hubStep s e).2).count d +
        ((bufOf (hubStep s e).1 U).candidates).count d ≤
      (arrivalsFor U [e]).count d + ((bufOf s U).candidates).count d := by
  cases e with
  | register c =>
    rw [show hubStep s (Event.register c) = registerStep s c from rfl,
      show iceDataTo U (registerStep s c).2 = [] from
        List.filterMap_eq_nil_iff.2 (registerStep_no_ice U s c),
      bufOf_congr (registerStep_iceBuffers s c) U]
    simp [arrivalsFor]
  | unregister c =>
    rw [show hubStep s (Event.unregister c) = unregisterStep s c from rfl,
      show iceDataTo U (unregisterStep s c).2 = [] from
        List.filterMap_eq_nil_iff.2 (unregisterStep_no_ice U s c),
      bufOf_congr (unregisterStep_iceBuffers s c) U]
    simp [arrivalsFor]
  | bGeneric c pid dd =>
    rw [show hubStep s (Event.bGeneric c pid dd) = bGenericStep s c pid dd from rfl,
      show iceDataTo U (bGenericStep s c pid dd).2 = [] from
        List.filterMap_eq_nil_iff.2 (bGenericStep_no_ice U s c pid dd),
      bufOf_congr (bGenericStep_iceBuffers s c pid dd) U]
    simp [arrivalsFor]
  | sfuOther t snd dd =>
    rw [show hubStep s (Event.sfuOther t snd dd) = sfuOtherStep s t snd dd from rfl,
      bufOf_congr (sfuOtherStep_iceBuffers s t snd dd) U]
    rcases sfuOtherStep_outs s t snd dd with ho | ⟨tc, _, ho⟩ <;>
      rw [show iceDataTo U (sfuOtherStep s t snd dd).2 =
        List.filterMap (iceOutData U) (sfuOtherStep s t snd dd).2 from rfl, ho] <;>
      simp [arrivalsFor, iceOutData, List.filterMap_cons]
  | sfuOffer t snd dd =>
    rw [show hubStep s (Event.sfuOffer t snd dd) = sfuOfferStep s t snd dd from rfl]
    by_cases hU : U = t
    · subst hU
      rcases htc : alookup U s.userMap with _ | tc
      · rw [show iceDataTo U (sfuOfferStep s U snd dd).2 =
            List.filterMap (iceOutData U) (sfuOfferStep s U snd dd).2 from rfl,
          (sfuOfferStep_off snd dd htc).1, (sfuOfferStep_off snd dd htc).2]
        simp [arrivalsFor]
      · rw [show iceDataTo U (sfuOfferStep s U snd dd).2 =
            List.filterMap (iceOutData U) (sfuOfferStep s U snd dd).2 from rfl,
          (sfuOfferStep_conn snd dd htc).1, List.filterMap_cons,
          show iceOutData U (Out.send U tc.cid (WireMsg.offer U snd dd) Mode.blocking) = none
            from rfl,
          show List.filterMap (iceOutData U) (flushMsgs U tc (bufOf s U).candidates) =
            (bufOf s U).candidates from iceDataTo_flushMsgs_self U tc _,
          (sfuOfferStep_conn snd dd htc).2]
        simp [arrivalsFor]
    · have hb : bufOf (sfuOfferStep s t snd dd).1 U = bufOf s U := by
        rcases htc : alookup t s.userMap with _ | tc
        · exact sfuOfferStep_off_ne snd dd htc hU
        · exact sfuOfferStep_conn_ne snd dd htc hU
      rw [hb, show iceDataTo U (sfuOfferStep s t snd dd).2 =
        List.filterMap (iceOutData U) (sfuOfferStep s t snd dd).2 from rfl]
      rcases htc : alookup t s.userMap with _ | tc
      · rw [(sfuOfferStep_off snd dd htc).1]
        simp [arrivalsFor]
      · rw [(sfuOfferStep_conn snd dd htc).1, List.filterMap_cons,
          iceOutData_send_ne _ _ _ (Ne.symm hU),
          show List.filterMap (iceOutData U) (flushMsgs t tc (bufOf s t).candidates) = [] from
            iceDataTo_flushMsgs_ne tc _ (Ne.symm hU)]
        simp [arrivalsFor]
  | sfuIce t snd dd =>
    rw [show hubStep s (Event.sfuIce t snd dd) = sfuIceStep s t snd dd from rfl]
    by_cases hU : U = t
    · subst hU
      have harr : (arrivalsFor U [Event.sfuIce U snd dd]).count d = [dd].count d := by
        simp [arrivalsFor, arrivalData]
      rcases htc : alookup U s.userMap with _ | tc
      · rw [show iceDataTo U (sfuIceStep s U snd dd).2 =
            List.filterMap (iceOutData U) (sfuIceStep s U snd dd).2 from rfl,
          (sfuIceStep_off snd dd htc).1, (sfuIceStep_off snd dd htc).2, harr]
        simp [List.count_append]
        all_goals omega
      · rcases hfl : descSent s U with _ | _
        · rw [show iceDataTo U (sfuIceStep s U snd dd).2 =
              List.filterMap (iceOutData U) (sfuIceStep s U snd dd).2 from rfl,
            (sfuIceStep_buffered snd dd htc hfl).1,
            (sfuIceStep_buffered snd dd htc hfl).2, harr]
          simp [List.count_append]
          omega
        · rw [show iceDataTo U (sfuIceStep s U snd dd).2 =
              List.filterMap (iceOutData U) (sfuIceStep s U snd dd).2 from rfl,
            (sfuIceStep_fwd snd dd htc hfl).1, (sfuIceStep_fwd snd dd htc hfl).2 U, harr]
          simp [iceOutData, List.count_cons]
    · rw [sfuIceStep_bufOf_ne snd dd hU,
        show iceDataTo U (sfuIceStep s t snd dd).2 =
          List.filterMap (iceOutData U) (sfuIceStep s t snd dd).2 from rfl]
      rcases htc : alookup t s.userMap with _ | tc
      · rw [(sfuIceStep_off snd dd htc).1]
        simp [arrivalsFor]
      · rcases hfl : descSent s t with _ | _
        · rw [(sfuIceStep_buffered snd dd htc hfl).1]
          simp [arrivalsFor]
        · rw [(sfuIceStep_fwd snd dd htc hfl).1, List.filterMap_cons,
            iceOutData_send_ne _ _ _ (Ne.symm hU)]
          simp [arrivalsFor]
  | bJoin c =>
    rw [show hubStep s (Event.bJoin c) = bJoinStep s c from rfl]
    rcases hsfu : s.sfuClient with _ | sfu
    · rw [bJoinStep_nosfu hsfu]
      simp [arrivalsFor, iceDataTo]
    · rcases hpo : (bufOf s c.userID).pendingOffer with _ | po
      · rw [show iceDataTo U (bJoinStep s c).2 =
            List.filterMap (iceOutData U) (bJoinStep s c).2 from rfl,
          (bJoinStep_nopending hsfu hpo).1, (bJoinStep_nopending hsfu hpo).2 U]
        simp [arrivalsFor, iceOutData, List.filterMap_cons]
      · by_cases hU : U = c.userID
        · subst hU
          rw [show iceDataTo c.userID (bJoinStep s c).2 =
              List.filterMap (iceOutData c.userID) (bJoinStep s c).2 from rfl,
            (bJoinStep_pending hsfu hpo).1, List.filterMap_cons,
            iceOutData_send_notice _ po _ (fun a b ddd hh => hpni c.userID a b ddd (hh ▸ hpo)),
            List.filterMap_append,
            show List.filterMap (iceOutData c.userID) (flushMsgs c.userID c
              (bufOf s c.userID).candidates) = (bufOf s c.userID).candidates from
              iceDataTo_flushMsgs_self c.userID c _,
            (bJoinStep_pending hsfu hpo).2]
          simp [arrivalsFor, List.count_append, iceOutData, List.filterMap_cons]
        · rw [bJoinStep_bufOf_ne hU,
            show iceDataTo U (bJoinStep s c).2 =
              List.filterMap (iceOutData U) (bJoinStep s c).2 from rfl,
            (bJoinStep_pending hsfu hpo).1, List.filterMap_cons,
            iceOutData_send_ne _ _ _ (Ne.symm hU), List.filterMap_append,
            show List.filterMap (iceOutData U) (flushMsgs c.userID c
              (bufOf s c.userID).candidates) = [] from
              iceDataTo_flushMsgs_ne c _ (Ne.symm hU)]
          simp [arrivalsFor, iceOutData, List.filterMap_cons]
  | bAnswer c pS pD =>
    rw [show hubStep s (Event.bAnswer c pS pD) = bAnswerStep s c pS pD from rfl]
    rcases hsfu : s.sfuClient with _ | sfu
    · rw [bAnswerStep_nosfu pS pD hsfu]
      simp [arrivalsFor, iceDataTo]
    · by_cases hU : U = pS
      · subst hU
        rcases htc : alookup U s.userMap with _ | tc
        · rw [show iceDataTo U (bAnswerStep s c U pD).2 =
              List.filterMap (iceOutData U) (bAnswerStep s c U pD).2 from rfl,
            (bAnswerStep_off pD hsfu htc).1, (bAnswerStep_off pD hsfu htc).2]
          simp [arrivalsFor, iceOutData, List.filterMap_cons]
        · rw [show iceDataTo U (bAnswerStep s c U pD).2 =
              List.filterMap (iceOutData U) (bAnswerStep s c U pD).2 from rfl,
            (bAnswerStep_conn pD hsfu htc).1, List.filterMap_cons,
            show iceOutData U (Out.sendSFU (WireMsg.answerToSFU c.userID pD)) = none from rfl,
            show List.filterMap (iceOutData U) (flushMsgs U tc (bufOf s U).candidates) =
              (bufOf s U).candidates from iceDataTo_flushMsgs_self U tc _,
            (bAnswerStep_conn pD hsfu htc).2]
          simp [arrivalsFor]
      · rw [bAnswerStep_bufOf_ne pD hU,
          show iceDataTo U (bAnswerStep s c pS pD).2 =
            List.filterMap (iceOutData U) (bAnswerStep s c pS pD).2 from rfl]
        rcases htc : alookup pS s.userMap with _ | tc
        · rw [(bAnswerStep_off pD hsfu htc).1]
          simp [arrivalsFor, iceOutData, List.filterMap_cons]
        · rw [(bAnswerStep_conn pD hsfu htc).1, List.filterMap_cons,
            show iceOutData U (Out.sendSFU (WireMsg.answerToSFU c.userID pD)) = none from rfl,
            show List.filterMap (iceOutData U) (flushMsgs pS tc (bufOf s pS).candidates) = []
              from iceDataTo_flushMsgs_ne tc _ (Ne.symm hU)]
          simp [arrivalsFor]
  | bIce c pS pD =>
    rw [show hubStep s (Event.bIce c pS pD) = bIceStep s c pS pD from rfl]
    rcases hsfu : s.sfuClient with _ | sfu
    · rw [bIceStep_nosfu pS pD hsfu]
      simp [arrivalsFor, iceDataTo, arrivalData]
    · by_cases hU : U = pS
      · subst hU
        have harr : (arrivalsFor U [Event.bIce c U pD]).count d = [pD].count d := by
          simp [arrivalsFor, arrivalData]
        rcases hfl : descSent s U with _ | _
        · rw [show iceDataTo U (bIceStep s c U pD).2 =
              List.filterMap (iceOutData U) (bIceStep s c U pD).2 from rfl,
            (bIceStep_buffered pD hsfu hfl).1, (bIceStep_buffered pD hsfu hfl).2, harr]
          simp [List.count_append]
          omega
        · rw [show iceDataTo U (bIceStep s c U pD).2 =
              List.filterMap (iceOutData U) (bIceStep s c U pD).2 from rfl,
            (bIceStep_fwd pD hsfu hfl).1, (bIceStep_fwd pD hsfu hfl).2 U, harr]
          simp [iceOutData, List.filterMap_cons]
      · rw [bIceStep_bufOf_ne pD hU,
          show iceDataTo U (bIceStep s c pS pD).2 =
            List.filterMap (iceOutData U) (bIceStep s c pS pD).2 from rfl]
        rcases hfl : descSent s pS with _ | _
        · rw [(bIceStep_buffered pD hsfu hfl).1]
          simp [arrivalsFor, arrivalData, Ne.symm hU]
        · rw [(bIceStep_fwd pD hsfu hfl).1]
          simp [arrivalsFor, arrivalData, Ne.symm hU, iceOutData]

theorem descSent_mono_run (es : List Event) :
    ∀ (s : HubState) (U : String), descSent s U = true →
      descSent (hubRun s es).1 U = true := by
  induction es with
  | nil => intro s U h; exact h
  | cons e es ih =>
    intro s U h
    rw [hubRun_cons]
    exact ih (hubStep s e).1 U (descSent_mono s e U h)

theorem pendingNotIce_run (es : List Event) :
    ∀ (s : HubState), PendingNotIce s → PendingNotIce (hubRun s es).1 := by
  induction es with
  | nil => intro s h; exact h
  | cons e es ih =>
    intro s h
    rw [hubRun_cons]
    exact ih (hubStep s e).1 (pendingNotIce_step e h)

theorem no_early_run (es : List Event) :
    ∀ (s : HubState) (U : String), descSent (hubRun s es).1 U = false →
      iceDataTo U (hubRun s es).2 = [] := by
  induction es with
  | nil => intro s U _; rfl
  | cons e es ih =>
    intro s U h
    rw [hubRun_cons] at h ⊢
    have h1 : descSent (hubStep s e).1 U = false := by
      rcases hd : descSent (hubStep s e).1 U with _ | _
      · rfl
      · exfalso
        rw [descSent_mono_run es (hubStep s e).1 U hd] at h
        exact Bool.noConfusion h
    unfold iceDataTo
    rw [List.filterMap_append,
      show List.filterMap (iceOutData U) (hubStep s e).2 =
        iceDataTo U (hubStep s e).2 from rfl,
      step_no_early s e U h1,
      show List.filterMap (iceOutData U) (hubRun (hubStep s e).1 es).2 =
        iceDataTo U (hubRun (hubStep s e).1 es).2 from rfl,
      ih (hubStep s e).1 U h]
    rfl

theorem count_run (es : List Event) :
    ∀ (s : HubState) (U d : String), PendingNotIce s →
      (iceDataTo U (hubRun s es).2).count d +
          ((bufOf (hubRun s es).1 U).candidates).count d ≤
        (arrivalsFor U es).count d + ((bufOf s U).candidates).count d := by
  induction es with
  | nil => intro s U d _; simp [hubRun, iceDataTo, arrivalsFor]
  | cons e es ih =>
    intro s U d hpni
    have hstep := step_count s e U d hpni
    have hrest := ih (hubStep s e).1 U d (pendingNotIce_step e hpni)
    have harr : (arrivalsFor U (e :: es)).count d =
        (arrivalsFor U [e]).count d + (arrivalsFor U es).count d := by
      unfold arrivalsFor
      rw [List.filterMap_cons]
      cases hv : arrivalData U e <;>
        simp [hv, List.filterMap_cons, List.count_cons, Nat.add_comm]
    have houts : (iceDataTo U (hubRun s (e :: es)).2).count d =
        (iceDataTo U (hubStep s e).2).count d +
          (iceDataTo U (hubRun (hubStep s e).1 es).2).count d := by
      rw [hubRun_cons]
      unfold iceDataTo
      rw [List.filterMap_append, List.count_append]
    rw [houts, harr,
      show (hubRun s (e :: es)).1 = (hubRun (hubStep s e).1 es).1 from rfl]
    omega

end WS


/-! ### Claim theorems -/

namespace WS

/-- Claim C1 (amended) — ICE ordering, SFU-to-client direction. (1) If both
direction flags for user U are still unset after a run from the initial state
(flags are never reset), the Hub has delivered zero ICE candidates to U.
(2) An offer arriving for a connected U is delivered first and is followed
immediately by every buffered candidate, in FIFO arrival order; afterwards the
buffer entity persists with OfferSent set and an empty candidate queue.
(3) An answer processed for U while U is connected forwards the answer and then
delivers every buffered candidate to U in FIFO order, setting AnswerSent and
clearing the queue while the buffer persists. (4) Over any run, deliveries to
U plus still-buffered candidates never exceed arrivals for U, so no buffered
candidate is ever replayed twice. (The original claim fails when the answer
flag is set while U is disconnected: the queue is then cleared without
delivery, see the counterexample.) -/
theorem claim1_ice_ordering :
    (∀ (es : List Event) (U : String), descSent (hubRun initHub es).1 U = false →
      iceDataTo U (hubRun initHub es).2 = []) ∧
    (∀ (s : HubState) (t snd d : String) (tc : Client), alookup t s.userMap = some tc →
      (hubStep s (Event.sfuOffer t snd d)).2 =
        Out.send t tc.cid (WireMsg.offer t snd d) Mode.blocking ::
          flushMsgs t tc (bufOf s t).candidates ∧
      bufOf (hubStep s (Event.sfuOffer t snd d)).1 t =
        { bufOf s t with offerSent := true, candidates := [] }) ∧
    (∀ (s : HubState) (c : Client) (pS pD : String) (sfu tc : Client),
      s.sfuClient = some sfu → alookup pS s.userMap = some tc →
      (hubStep s (Event.bAnswer c pS pD)).2 =
        Out.sendSFU (WireMsg.answerToSFU c.userID pD) ::
          flushMsgs pS tc (bufOf s pS).candidates ∧
      bufOf (hubStep s (Event.bAnswer c pS pD)).1 pS =
        { bufOf s pS with answerSent := true, candidates := [] }) ∧
    (∀ (es : List Event) (U d : String),
      (iceDataTo U (hubRun initHub es).2).count d +
          ((bufOf (hubRun initHub es).1 U).candidates).count d ≤
        (arrivalsFor U es).count d) := by
  refine ⟨fun es U h => no_early_run es initHub U h,
    fun s t snd d tc htc => sfuOfferStep_conn snd d htc,
    fun s c pS pD sfu tc hsfu htc => bAnswerStep_conn pD hsfu htc,
    fun es U d => ?_⟩
  have hpni : PendingNotIce initHub := by
    intro V a b dd
    simp [bufOf, initHub, alookup, ICEBuffer.fresh]
  have := count_run es initHub U d hpni
  simpa [bufOf, initHub, alookup, ICEBuffer.fresh] using this

/-- Claim C1 counterexample: in traceLost the candidate "c1" addressed to user
"u" arrives before u's offer/answer has been sent (flags unset, u not
connected), the AnswerSent flag is then set by a webrtc_answer broadcast naming
"u" while u is disconnected, and u subsequently connects; the Hub delivers zero
candidates to u in the whole run and the buffer queue was cleared, so "after
the offer/answer is sent it delivers all buffered candidates to U" is false on
the code. -/
theorem claim1_counterexample :
    arrivalsFor "u" traceLost = ["c1"] ∧
    descSent (hubRun initHub traceLost).1 "u" = true ∧
    alookup "u" (hubRun initHub traceLost).1.userMap = some cU ∧
    iceDataTo "u" (hubRun initHub traceLost).2 = [] ∧
    (bufOf (hubRun initHub traceLost).1 "u").candidates = [] := by decide

/-- Witness for claim C1: each hypothesis-bearing conjunct instantiated at a
concrete input. -/
theorem claim1_witness :
    (descSent (hubRun initHub [Event.register cX]).1 "u" = false ∧
      iceDataTo "u" (hubRun initHub [Event.register cX]).2 = []) ∧
    (alookup "u" sWitUS.userMap = some cU ∧
      ((hubStep sWitUS (Event.sfuOffer "u" "sfu" "o2")).2 =
        Out.send "u" cU.cid (WireMsg.offer "u" "sfu" "o2") Mode.blocking ::
          flushMsgs "u" cU (bufOf sWitUS "u").candidates ∧
      bufOf (hubStep sWitUS (Event.sfuOffer "u" "sfu" "o2")).1 "u" =
        { bufOf sWitUS "u" with offerSent := true, candidates := [] })) ∧
    (sWitUS.sfuClient = some cS ∧ alookup "u" sWitUS.userMap = some cU ∧
      ((hubStep sWitUS (Event.bAnswer cU "u" "a")).2 =
        Out.sendSFU (WireMsg.answerToSFU cU.userID "a") ::
          flushMsgs "u" cU (bufOf sWitUS "u").candidates ∧
      bufOf (hubStep sWitUS (Event.bAnswer cU "u" "a")).1 "u" =
        { bufOf sWitUS "u" with answerSent := true, candidates := [] })) :=
  ⟨⟨by decide, claim1_ice_ordering.1 [Event.register cX] "u" (by decide)⟩,
   ⟨by decide, claim1_ice_ordering.2.1 sWitUS "u" "sfu" "o2" cU (by decide)⟩,
   ⟨by decide, by decide,
     claim1_ice_ordering.2.2.1 sWitUS cU "u" "a" cS cU (by decide) (by decide)⟩⟩

theorem presenceFold_shape (us : List (String × String)) (room : List (String × Client)) :
    ∀ (s : HubState) (outs : List Out),
      (∀ x ∈ outs, (∃ uid cid l, x = Out.send uid cid (WireMsg.presence l) Mode.tryPresence) ∨
        ∃ uid cid, x = Out.presenceDrop uid cid) →
      ∀ x ∈ (room.foldl (presenceStepOne us) (s, outs)).2,
        (∃ uid cid l, x = Out.send uid cid (WireMsg.presence l) Mode.tryPresence) ∨
        ∃ uid cid, x = Out.presenceDrop uid cid := by
  induction room with
  | nil => intro s outs h x hx; exact h x hx
  | cons p rest ih =>
    intro s outs h x hx
    rw [List.foldl_cons] at hx
    by_cases hq : qFull p.2.cid s.queues = true
    · rw [show presenceStepOne us (s, outs) p = (s, outs ++ [Out.presenceDrop p.1 p.2.cid]) by
        unfold presenceStepOne; simp [hq]] at hx
      refine ih s _ ?_ x hx
      intro y hy
      rcases List.mem_append.1 hy with hh | hh
      · exact h y hh
      · rw [List.mem_singleton] at hh
        subst hh
        exact Or.inr ⟨p.1, p.2.cid, rfl⟩
    · rw [show presenceStepOne us (s, outs) p =
          ({ s with queues := qBump p.2.cid s.queues },
            outs ++ [Out.send p.1 p.2.cid (WireMsg.presence us) Mode.tryPresence]) by
        unfold presenceStepOne; simp [hq]] at hx
      refine ih _ _ ?_ x hx
      intro y hy
      rcases List.mem_append.1 hy with hh | hh
      · exact h y hh
      · rw [List.mem_singleton] at hh
        subst hh
        exact Or.inl ⟨p.1, p.2.cid, us, rfl⟩

theorem broadcastPresence_shape (s : HubState) (pid : String) :
    ∀ x ∈ (broadcastPresence s pid).2,
      (∃ uid cid l, x = Out.send uid cid (WireMsg.presence l) Mode.tryPresence) ∨
      ∃ uid cid, x = Out.presenceDrop uid cid := by
  unfold broadcastPresence
  split
  · intro x hx; simp at hx
  · exact presenceFold_shape _ _ s [] (by intro y hy; simp at hy)

/-- Claim C10: the webrtc_answer branch selects the ICE buffer by the
client-supplied payload.Sender while the envelope forwarded to the SFU carries
the authenticated message.Sender.UserID (the payload unmarshal error is
ignored, so an unparseable payload leaves the zero sender ""). With clients
"x" and "u" and the SFU connected, x's answer naming "u" sets u's AnswerSent
flag and leaves x's buffer untouched while the SFU envelope says "x"; x's
answer with the zero payload mutates the buffer keyed by "" instead. Hence
buffer-flag mutation is not determined by the authenticated sender alone. -/
theorem claim10_answer_sender_confusion :
    (bufOf (hubStep sWitXUS (Event.bAnswer cX "u" "a")).1 "u").answerSent = true ∧
    (bufOf (hubStep sWitXUS (Event.bAnswer cX "u" "a")).1 "x").answerSent = false ∧
    Out.sendSFU (WireMsg.answerToSFU "x" "a") ∈
      (hubStep sWitXUS (Event.bAnswer cX "u" "a")).2 ∧
    cX.userID = "x" ∧ ("u" : String) ≠ "x" ∧
    (bufOf (hubStep sWitXUS (Event.bAnswer cX "" "a")).1 "").answerSent = true ∧
    (bufOf (hubStep sWitXUS (Event.bAnswer cX "" "a")).1 "u").answerSent = false := by
  decide

/-- Claim C3 evaluated at the failing input (code bug): user "u" buffers a
client-to-SFU candidate "c1" before its answer; when u's webrtc_answer is
processed the Hub marks AnswerSent, forwards the answer to the SFU, but then
flushes the buffered candidate back to client "u" itself (wrapped as an
SFU-originated message) — the SFU never receives any forwarded candidate
"c1", contradicting the claim that buffered candidates are forwarded to the
SFU. -/
theorem claim3_flush_destination :
    Out.sendSFU (WireMsg.answerToSFU "u" "a") ∈ (hubRun initHub traceC3).2 ∧
    (bufOf (hubRun initHub traceC3).1 "u").answerSent = true ∧
    Out.send "u" cU.cid (WireMsg.ice "u" "sfu" "c1") Mode.blocking ∈
      (hubRun initHub traceC3).2 ∧
    ((hubRun initHub traceC3).2.all fun o =>
      match o with
      | Out.sendSFU (WireMsg.iceToSFU _ _) => false
      | _ => true) = true := by
  decide

/-- Claim C6 counterexample: the claim says every delivery from the Hub into a
client outbound queue is a non-blocking enqueue with full-queue eviction; but
forwarding an SDP offer to a connected user is a bare blocking channel send,
and a full queue during a presence broadcast only drops the message without
evicting the client (cZ has capacity 0, stays registered). -/
theorem claim6_counterexample :
    Out.send "u" cU.cid (WireMsg.offer "u" "sfu" "o1") Mode.blocking ∈
      (hubRun initHub traceOfferBlocking).2 ∧
    Out.presenceDrop "z" cZ.cid ∈
      (hubRun initHub [Event.register cZ, Event.register cX]).2 ∧
    alookup "z" sWitZX.userMap = some cZ := by
  decide

/-- Claim C6 (amended) — full-queue handling by delivery path. (1) Generic
room-broadcast fan-out uses a non-blocking enqueue: a recipient whose queue is
full (or closed) is evicted — its channel is closed and it is removed from the
user map — while every recipient with a non-full queue still receives the
message. (2) Presence broadcasts use a non-blocking enqueue that only drops
the message on a full queue: the room and user maps are unchanged and every
output is a presence send or a presence drop. (3) Direct signaling forwards
(here: the offer forward to a connected user, together with its candidate
flush) are blocking channel sends. -/
theorem claim6_full_queue :
    (∀ (s : HubState) (sender : Client) (pid data : String)
      (room : List (String × Client)), alookup pid s.clients = some room →
      (room.map fun p => p.2.cid).Nodup →
      ∀ p ∈ room, p.2.cid ≠ sender.cid →
        (qFull p.2.cid s.queues = true →
          Out.evict p.1 p.2.cid ∈ (hubStep s (Event.bGeneric sender pid data)).2 ∧
          (∃ q, alookup p.2.cid
              (hubStep s (Event.bGeneric sender pid data)).1.queues = some q ∧
            q.closed = true) ∧
          alookup p.2.userID (hubStep s (Event.bGeneric sender pid data)).1.userMap = none) ∧
        (qFull p.2.cid s.queues = false →
          Out.send p.1 p.2.cid (WireMsg.generic data) Mode.tryRoom ∈
            (hubStep s (Event.bGeneric sender pid data)).2)) ∧
    (∀ (s : HubState) (pid : String),
      (broadcastPresence s pid).1.clients = s.clients ∧
      (broadcastPresence s pid).1.userMap = s.userMap ∧
      ∀ x ∈ (broadcastPresence s pid).2,
        (∃ uid cid l, x = Out.send uid cid (WireMsg.presence l) Mode.tryPresence) ∨
        ∃ uid cid, x = Out.presenceDrop uid cid) ∧
    (∀ (s : HubState) (t snd d : String) (tc : Client), alookup t s.userMap = some tc →
      (hubStep s (Event.sfuOffer t snd d)).2 =
        Out.send t tc.cid (WireMsg.offer t snd d) Mode.blocking ::
          flushMsgs t tc (bufOf s t).candidates) := by
  refine ⟨?_, fun s pid => ⟨broadcastPresence_clients s pid, broadcastPresence_userMap s pid,
      broadcastPresence_shape s pid⟩,
    fun s t snd d tc htc => (sfuOfferStep_conn snd d htc).1⟩
  intro s sender pid data room hroom hnd p hp hpne
  have := fanFold_outcome sender data pid room s [] hnd p hp hpne
  rw [show hubStep s (Event.bGeneric sender pid data) = bGenericStep s sender pid data
    from rfl]
  unfold bGenericStep
  rw [hroom]
  exact this

/-- Witness for claim C6: in the room of sWitZX, recipient "z" (capacity-0
queue, full) is evicted by a generic broadcast from "x", and the blocking
offer-forward conjunct instantiated at sWitUS. -/
theorem claim6_witness :
    (alookup "p" sWitZX.clients = some [("z", cZ), ("x", cX)] ∧
      (([("z", cZ), ("x", cX)] : List (String × Client)).map fun p => p.2.cid).Nodup ∧
      ("z", cZ) ∈ ([("z", cZ), ("x", cX)] : List (String × Client)) ∧
      cZ.cid ≠ cX.cid ∧ qFull cZ.cid sWitZX.queues = true ∧
      (Out.evict "z" cZ.cid ∈ (hubStep sWitZX (Event.bGeneric cX "p" "m")).2 ∧
        (∃ q, alookup cZ.cid (hubStep sWitZX (Event.bGeneric cX "p" "m")).1.queues = some q ∧
          q.closed = true) ∧
        alookup cZ.userID (hubStep sWitZX (Event.bGeneric cX "p" "m")).1.userMap = none)) ∧
    (alookup "u" sWitUS.userMap = some cU ∧
      (hubStep sWitUS (Event.sfuOffer "u" "sfu" "o3")).2 =
        Out.send "u" cU.cid (WireMsg.offer "u" "sfu" "o3") Mode.blocking ::
          flushMsgs "u" cU (bufOf sWitUS "u").candidates) :=
  ⟨⟨by decide, by decide, by decide, by decide, by decide,
    (claim6_full_queue.1 sWitZX cX "p" "m" [("z", cZ), ("x", cX)] (by decide) (by decide)
      ("z", cZ) (by decide) (by decide)).1 (by decide)⟩,
   ⟨by decide, claim6_full_queue.2.2 sWitUS "u" "sfu" "o3" cU (by decide)⟩⟩

theorem pendingOffer_never_lost (s : HubState) (e : Event) (U : String) (po : WireMsg)
    (h : (bufOf s U).pendingOffer = some po) :
    (bufOf (hubStep s e).1 U).pendingOffer = some po ∨
    (∃ cid, Out.send U cid po Mode.blocking ∈ (hubStep s e).2) ∨
    (∃ snd dd, e = Event.sfuOffer U snd dd ∧
      (bufOf (hubStep s e).1 U).pendingOffer = some (WireMsg.offer U snd dd)) := by
  cases e with
  | register c =>
    left
    rw [show hubStep s (Event.register c) = registerStep s c from rfl,
      bufOf_congr (registerStep_iceBuffers s c) U]
    exact h
  | unregister c =>
    left
    rw [show hubStep s (Event.unregister c) = unregisterStep s c from rfl,
      bufOf_congr (unregisterStep_iceBuffers s c) U]
    exact h
  | bGeneric c pid d =>
    left
    rw [show hubStep s (Event.bGeneric c pid d) = bGenericStep s c pid d from rfl,
      bufOf_congr (bGenericStep_iceBuffers s c pid d) U]
    exact h
  | sfuOther t snd d =>
    left
    rw [show hubStep s (Event.sfuOther t snd d) = sfuOtherStep s t snd d from rfl,
      bufOf_congr (sfuOtherStep_iceBuffers s t snd d) U]
    exact h
  | sfuOffer t snd d =>
    rw [show hubStep s (Event.sfuOffer t snd d) = sfuOfferStep s t snd d from rfl]
    by_cases hU : U = t
    · subst hU
      rcases htc : alookup U s.userMap with _ | tc
      · right; right
        exact ⟨snd, d, rfl, by rw [(sfuOfferStep_off snd d htc).2]⟩
      · left
        rw [(sfuOfferStep_conn snd d htc).2]
        exact h
    · left
      rcases htc : alookup t s.userMap with _ | tc
      · rw [sfuOfferStep_off_ne snd d htc hU]
        exact h
      · rw [sfuOfferStep_conn_ne snd d htc hU]
        exact h
  | sfuIce t snd d =>
    left
    rw [show hubStep s (Event.sfuIce t snd d) = sfuIceStep s t snd d from rfl]
    by_cases hU : U = t
    · subst hU
      rcases htc : alookup U s.userMap with _ | tc
      · rw [(sfuIceStep_off snd d htc).2]
        exact h
      · rcases hfl : descSent s U with _ | _
        · rw [(sfuIceStep_buffered snd d htc hfl).2]
          exact h
        · rw [(sfuIceStep_fwd snd d htc hfl).2 U]
          exact h
    · rw [sfuIceStep_bufOf_ne snd d hU]
      exact h
  | bJoin c =>
    rw [show hubStep s (Event.bJoin c) = bJoinStep s c from rfl]
    by_cases hU : U = c.userID
    · subst hU
      rcases hsfu : s.sfuClient with _ | sfu
      · left
        rw [bJoinStep_nosfu hsfu]
        exact h
      · right; left
        refine ⟨c.cid, ?_⟩
        rw [(bJoinStep_pending hsfu h).1]
        exact List.mem_cons_self _ _
    · left
      rw [bJoinStep_bufOf_ne hU]
      exact h
  | bAnswer c pS pD =>
    left
    rw [show hubStep s (Event.bAnswer c pS pD) = bAnswerStep s c pS pD from rfl]
    by_cases hU : U = pS
    · subst hU
      rcases hsfu : s.sfuClient with _ | sfu
      · rw [bAnswerStep_nosfu U pD hsfu]
        exact h
      · rcases htc : alookup U s.userMap with _ | tc
        · rw [(bAnswerStep_off pD hsfu htc).2]
          exact h
        · rw [(bAnswerStep_conn pD hsfu htc).2]
          exact h
    · rw [bAnswerStep_bufOf_ne pD hU]
      exact h
  | bIce c pS pD =>
    left
    rw [show hubStep s (Event.bIce c pS pD) = bIceStep s c pS pD from rfl]
    by_cases hU : U = pS
    · subst hU
      rcases hsfu : s.sfuClient with _ | sfu
      · rw [bIceStep_nosfu U pD hsfu]
        exact h
      · rcases hfl : descSent s U with _ | _
        · rw [(bIceStep_buffered pD hsfu hfl).2]
          exact h
        · rw [(bIceStep_fwd pD hsfu hfl).2 U]
          exact h
    · rw [bIceStep_bufOf_ne pD hU]
      exact h

theorem bJoinStep_ensures (s : HubState) (c : Client) :
    alookup c.userID (hubStep s (Event.bJoin c)).1.iceBuffers =
      some (bufOf (hubStep s (Event.bJoin c)).1 c.userID) ∨ s.sfuClient = none := by
  rcases hsfu : s.sfuClient with _ | sfu
  · exact Or.inr rfl
  · left
    rw [show hubStep s (Event.bJoin c) = bJoinStep s c from rfl]
    rcases hpo : (bufOf s c.userID).pendingOffer with _ | po <;>
      have hpo2 := hpo <;> unfold bufOf at hpo2 <;>
      simp [bJoinStep, hsfu, hpo2, blockingSendSFU, blockingSend, flushICE,
        alookup_aset_self, bufOf, bufOf_lookup_ensure, bufOf_ensure]

/-- Claim C7 — join-call handling. (1) With no SFU connected a webrtc_join is
dropped with no state change. (2) With an SFU present and a buffered pending
offer for the joining user, the offer is delivered to the user first, followed
by the buffered candidates in FIFO order, and only then is the
webrtc_connect_request (carrying the sender userID and projectID) forwarded to
the SFU; the buffer afterwards has OfferSent set, no pending offer, and an
empty candidate queue. (3) With an SFU present and no pending offer, only the
connect request is sent and every ICE buffer value is unchanged (the joining
user's buffer is ensured to exist). (4) A buffered offer is never lost: any
event either preserves it, delivers it to the user in that step, or replaces
it with a newer offer from the SFU for the same user. -/
theorem claim7_join_call :
    (∀ (s : HubState) (c : Client), s.sfuClient = none →
      hubStep s (Event.bJoin c) = (s, [])) ∧
    (∀ (s : HubState) (c sfu : Client) (po : WireMsg), s.sfuClient = some sfu →
      (bufOf s c.userID).pendingOffer = some po →
      (hubStep s (Event.bJoin c)).2 =
        Out.send c.userID c.cid po Mode.blocking ::
          (flushMsgs c.userID c (bufOf s c.userID).candidates ++
            [Out.sendSFU (WireMsg.connectReq c.userID c.projectID)]) ∧
      bufOf (hubStep s (Event.bJoin c)).1 c.userID =
        { bufOf s c.userID with offerSent := true, pendingOffer := none, candidates := [] }) ∧
    (∀ (s : HubState) (c sfu : Client), s.sfuClient = some sfu →
      (bufOf s c.userID).pendingOffer = none →
      (hubStep s (Event.bJoin c)).2 =
        [Out.sendSFU (WireMsg.connectReq c.userID c.projectID)] ∧
      alookup c.userID (hubStep s (Event.bJoin c)).1.iceBuffers =
        some (bufOf s c.userID) ∧
      ∀ V, bufOf (hubStep s (Event.bJoin c)).1 V = bufOf s V) ∧
    (∀ (s : HubState) (e : Event) (U : String) (po : WireMsg),
      (bufOf s U).pendingOffer = some po →
      (bufOf (hubStep s e).1 U).pendingOffer = some po ∨
      (∃ cid, Out.send U cid po Mode.blocking ∈ (hubStep s e).2) ∨
      (∃ snd dd, e = Event.sfuOffer U snd dd ∧
        (bufOf (hubStep s e).1 U).pendingOffer = some (WireMsg.offer U snd dd))) := by
  refine ⟨fun s c hsfu => bJoinStep_nosfu hsfu,
    fun s c sfu po hsfu hpo => bJoinStep_pending hsfu hpo,
    fun s c sfu hsfu hpo => ⟨(bJoinStep_nopending hsfu hpo).1, ?_,
      (bJoinStep_nopending hsfu hpo).2⟩,
    pendingOffer_never_lost⟩
  rcases bJoinStep_ensures s c with he | he
  · rw [he]
    exact congrArg some ((bJoinStep_nopending hsfu hpo).2 c.userID)
  · rw [he] at hsfu
    exact Option.noConfusion hsfu

/-- Witness for claim C7: the no-SFU conjunct at sWitU, the pending-offer
conjunct at sWitJoin (buffered offer "o" and buffered candidate "c0" for the
joining user "u"), the no-pending conjunct at sWitUS, and the never-lost
conjunct at sWitJoin with the join event itself. -/
theorem claim7_witness :
    (sWitU.sfuClient = none ∧ hubStep sWitU (Event.bJoin cU) = (sWitU, [])) ∧
    (sWitJoin.sfuClient = some cS ∧
      (bufOf sWitJoin cU.userID).pendingOffer = some (WireMsg.offer "u" "sfu" "o") ∧
      ((hubStep sWitJoin (Event.bJoin cU)).2 =
        Out.send cU.userID cU.cid (WireMsg.offer "u" "sfu" "o") Mode.blocking ::
          (flushMsgs cU.userID cU (bufOf sWitJoin cU.userID).candidates ++
            [Out.sendSFU (WireMsg.connectReq cU.userID cU.projectID)]) ∧
      bufOf (hubStep sWitJoin (Event.bJoin cU)).1 cU.userID =
        { bufOf sWitJoin cU.userID with offerSent := true, pendingOffer := none, candidates := [] })) ∧
    (sWitUS.sfuClient = some cS ∧ (bufOf sWitUS cU.userID).pendingOffer = none) ∧
    ((bufOf sWitJoin "u").pendingOffer = some (WireMsg.offer "u" "sfu" "o") ∧
      ((bufOf (hubStep sWitJoin (Event.bJoin cU)).1 "u").pendingOffer =
          some (WireMsg.offer "u" "sfu" "o") ∨
      (∃ cid, Out.send "u" cid (WireMsg.offer "u" "sfu" "o") Mode.blocking ∈
        (hubStep sWitJoin (Event.bJoin cU)).2) ∨
      (∃ snd dd, Event.bJoin cU = Event.sfuOffer "u" snd dd ∧
        (bufOf (hubStep sWitJoin (Event.bJoin cU)).1 "u").pendingOffer =
          some (WireMsg.offer "u" snd dd)))) :=
  ⟨⟨by decide, claim7_join_call.1 sWitU cU (by decide)⟩,
   ⟨by decide, by decide,
     claim7_join_call.2.1 sWitJoin cU cS (WireMsg.offer "u" "sfu" "o") (by decide) (by decide)⟩,
   ⟨by decide, by decide⟩,
   ⟨by decide, claim7_join_call.2.2.2 sWitJoin (Event.bJoin cU) "u"
     (WireMsg.offer "u" "sfu" "o") (by decide)⟩⟩

theorem presence_payload_append {t : HubState} {pid : String} {pre : List Out}
    (hpre : ∀ uid cid l m, Out.send uid cid (WireMsg.presence l) m ∉ pre) :
    ∀ uid cid l m,
      Out.send uid cid (WireMsg.presence l) m ∈ pre ++ (broadcastPresence t pid).2 →
      ∃ room, alookup pid (broadcastPresence t pid).1.clients = some room ∧
        l = presenceList room := by
  intro uid cid l m hm
  rcases List.mem_append.1 hm with hh | hh
  · exact absurd hh (hpre uid cid l m)
  · obtain ⟨room, hr, hl⟩ := broadcastPresence_payload t pid uid cid l m hh
    exact ⟨room, by rw [broadcastPresence_clients]; exact hr, hl⟩

theorem unregisterRoom_presence (s : HubState) (c : Client) :
    ∀ uid cid l m,
      Out.send uid cid (WireMsg.presence l) m ∈ (unregisterRoom s c).2 →
      ∃ room, alookup c.projectID (unregisterRoom s c).1.clients = some room ∧
        l = presenceList room := by
  simp only [unregisterRoom]
  rcases hroom : alookup c.projectID s.clients with _ | room
  · intro uid cid l m hm; simp at hm
  · rcases hcc : alookup c.userID room with _ | cc
    · simp only [hcc]
      split
      · intro uid cid l m hm; simp at hm
      · exact presence_payload_append (by intro uid cid l m hm; simp at hm)
    · simp only [hcc]
      by_cases hcid : cc.cid = c.cid
      · simp only [hcid, if_true]
        rcases hsfu : s.sfuClient with _ | sc
        · simp only [hsfu]
          split
          · intro uid cid l m hm; simp at hm
          · exact presence_payload_append (by intro uid cid l m hm; simp at hm)
        · simp only [hsfu]
          split
          · intro uid cid l m hm; simp at hm
          · exact presence_payload_append (by intro uid cid l m hm; simp at hm)
      · simp only [hcid, if_false]
        split
        · intro uid cid l m hm; simp at hm
        · exact presence_payload_append (by intro uid cid l m hm; simp at hm)

theorem unregisterStep_presence (s : HubState) (c : Client) :
    ∀ uid cid l m,
      Out.send uid cid (WireMsg.presence l) m ∈ (unregisterStep s c).2 →
      ∃ room, alookup c.projectID (unregisterStep s c).1.clients = some room ∧
        l = presenceList room := by
  simp only [unregisterStep]
  split
  · split
    · intro uid cid l m hm; simp at hm
    · exact unregisterRoom_presence s c
  · exact unregisterRoom_presence s c

theorem registerStep_normal (s : HubState) (c : Client) (h : ¬ c.projectID = sfuChannel) :
    ∃ pre s2, (∀ uid cid l m, Out.send uid cid (WireMsg.presence l) m ∉ pre) ∧
      registerStep s c = ((broadcastPresence s2 c.projectID).1,
        pre ++ (broadcastPresence s2 c.projectID).2) ∧
      alookup c.projectID s2.clients =
        some (aset c.userID c ((alookup c.projectID s.clients).getD [])) := by
  rcases hold : alookup c.userID s.userMap with _ | old
  · refine ⟨[],
      { clients := aset c.projectID
          (aset c.userID c ((alookup c.projectID s.clients).getD [])) s.clients,
        userMap := aset c.userID c s.userMap, sfuClient := s.sfuClient,
        iceBuffers := s.iceBuffers, queues := qEnsure c s.queues },
      by intro uid cid l m hm; simp at hm, ?_, alookup_aset_self ..⟩
    simp [registerStep, h, hold]
  · refine ⟨[Out.closeQueue old.cid],
      { clients := aset c.projectID
          (aset c.userID c ((alookup c.projectID s.clients).getD [])) s.clients,
        userMap := aset c.userID c s.userMap, sfuClient := s.sfuClient,
        iceBuffers := s.iceBuffers, queues := qClose old.cid (qEnsure c s.queues) },
      by intro uid cid l m hm; simp at hm, ?_, alookup_aset_self ..⟩
    simp [registerStep, h, hold]

theorem unregisterRoom_empty (s : HubState) (c : Client) (room : List (String × Client))
    (cc : Client) (hroom : alookup c.projectID s.clients = some room)
    (hcc : alookup c.userID room = some cc) (hcid : cc.cid = c.cid)
    (hempty : aerase c.userID room = []) :
    alookup c.projectID (unregisterRoom s c).1.clients = none ∧
    ∀ uid cid l m, Out.send uid cid (WireMsg.presence l) m ∉ (unregisterRoom s c).2 := by
  rcases hsfu : s.sfuClient with _ | sc <;>
    constructor <;>
    simp [unregisterRoom, hroom, hcc, hcid, hempty, hsfu, alookup_aerase_self]

/-- Claim C8 — presence accuracy. (1) After a Register into a normal (non-SFU)
room, every presence broadcast emitted by that event lists exactly the post-
mutation membership of the room (the payload is the presenceList of the room
stored in the resulting state), the new client is present in that room, and
every member of the room is either sent that exact list or dropped for a full
queue. (2) Every presence broadcast emitted by an Unregister likewise lists
the post-mutation membership stored in the resulting state. (3) When an
Unregister empties a room, the room's map entry is deleted and no presence
broadcast is emitted at all. -/
theorem claim8_presence_accuracy :
    (∀ (s : HubState) (c : Client), ¬ c.projectID = sfuChannel →
      (∀ uid cid l m,
        Out.send uid cid (WireMsg.presence l) m ∈ (hubStep s (Event.register c)).2 →
        ∃ room, alookup c.projectID (hubStep s (Event.register c)).1.clients = some room ∧
          l = presenceList room) ∧
      ∃ room, alookup c.projectID (hubStep s (Event.register c)).1.clients = some room ∧
        alookup c.userID room = some c ∧
        ∀ p ∈ room,
          Out.send p.1 p.2.cid (WireMsg.presence (presenceList room)) Mode.tryPresence ∈
              (hubStep s (Event.register c)).2 ∨
            Out.presenceDrop p.1 p.2.cid ∈ (hubStep s (Event.register c)).2) ∧
    (∀ (s : HubState) (c : Client) (uid : String) (cid : Nat)
        (l : List (String × String)) (m : Mode),
      Out.send uid cid (WireMsg.presence l) m ∈ (hubStep s (Event.unregister c)).2 →
      ∃ room, alookup c.projectID (hubStep s (Event.unregister c)).1.clients = some room ∧
        l = presenceList room) ∧
    (∀ (s : HubState) (c : Client) (room : List (String × Client)) (cc : Client),
      s.sfuClient.all (fun sc => decide ¬ sc.cid = c.cid) = true →
      alookup c.projectID s.clients = some room →
      alookup c.userID room = some cc → cc.cid = c.cid →
      aerase c.userID room = [] →
      alookup c.projectID (hubStep s (Event.unregister c)).1.clients = none ∧
      ∀ uid cid l m,
        Out.send uid cid (WireMsg.presence l) m ∉ (hubStep s (Event.unregister c)).2) := by
  refine ⟨?_, ?_, ?_⟩
  · intro s c h
    obtain ⟨pre, s2, hpre, heq, hlook⟩ := registerStep_normal s c h
    rw [show hubStep s (Event.register c) = registerStep s c from rfl, heq]
    refine ⟨presence_payload_append hpre,
      aset c.userID c ((alookup c.projectID s.clients).getD []), ?_,
      alookup_aset_self .., ?_⟩
    · show alookup c.projectID (broadcastPresence s2 c.projectID).1.clients = _
      rw [broadcastPresence_clients]
      exact hlook
    · intro p hp
      rcases broadcastPresence_member hlook hp with hmem | hmem
      · exact Or.inl (List.mem_append_right pre hmem)
      · exact Or.inr (List.mem_append_right pre hmem)
  · intro s c uid cid l m
    rw [show hubStep s (Event.unregister c) = unregisterStep s c from rfl]
    exact unregisterStep_presence s c uid cid l m
  · intro s c room cc hguard hroom hcc hcid hempty
    rw [show hubStep s (Event.unregister c) = unregisterStep s c from rfl]
    have hur := unregisterRoom_empty s c room cc hroom hcc hcid hempty
    rcases hsfu : s.sfuClient with _ | sc
    · rw [show unregisterStep s c = unregisterRoom s c by simp [unregisterStep, hsfu]]
      exact hur
    · rw [hsfu] at hguard
      have hne : ¬ sc.cid = c.cid := by simpa using hguard
      rw [show unregisterStep s c = unregisterRoom s c by simp [unregisterStep, hsfu, hne]]
      exact hur

/-- Witness for claim C8: the Register conjunct at initHub with client "u"
(the resulting room holds exactly "u" and the theorem yields its delivery
facts); the Unregister-payload conjunct at sWitXUS unregistering "x", whose
presence broadcast to the remaining user "u" carries exactly the remaining
membership; and the empty-room conjunct at sWitU unregistering "u". -/
theorem claim8_witness :
    ((¬ cU.projectID = sfuChannel) ∧
      ∃ room, alookup cU.projectID (hubStep initHub (Event.register cU)).1.clients =
          some room ∧
        alookup cU.userID room = some cU ∧
        ∀ p ∈ room,
          Out.send p.1 p.2.cid (WireMsg.presence (presenceList room)) Mode.tryPresence ∈
              (hubStep initHub (Event.register cU)).2 ∨
            Out.presenceDrop p.1 p.2.cid ∈ (hubStep initHub (Event.register cU)).2) ∧
    (Out.send "u" cU.cid (WireMsg.presence [("u", "U")]) Mode.tryPresence ∈
        (hubStep sWitXUS (Event.unregister cX)).2 ∧
      ∃ room, alookup cX.projectID (hubStep sWitXUS (Event.unregister cX)).1.clients =
          some room ∧ [(("u" : String), ("U" : String))] = presenceList room) ∧
    (sWitU.sfuClient.all (fun sc => decide ¬ sc.cid = cU.cid) = true ∧
      alookup cU.projectID sWitU.clients = some [("u", cU)] ∧
      alookup cU.userID [(("u" : String), cU)] = some cU ∧ cU.cid = cU.cid ∧
      aerase cU.userID [(("u" : String), cU)] = [] ∧
      alookup cU.projectID (hubStep sWitU (Event.unregister cU)).1.clients = none ∧
      ∀ uid cid l m,
        Out.send uid cid (WireMsg.presence l) m ∉ (hubStep sWitU (Event.unregister cU)).2) :=
  ⟨⟨by decide, (claim8_presence_accuracy.1 initHub cU (by decide)).2⟩,
   ⟨by decide, claim8_presence_accuracy.2.1 sWitXUS cX "u" cU.cid [("u", "U")]
      Mode.tryPresence (by decide)⟩,
   ⟨by decide, by decide, by decide, rfl, by decide,
     (claim8_presence_accuracy.2.2 sWitU cU [("u", cU)] cU (by decide) (by decide)
       (by decide) rfl (by decide)).1,
     (claim8_presence_accuracy.2.2 sWitU cU [("u", cU)] cU (by decide) (by decide)
       (by decide) rfl (by decide)).2⟩⟩

end WS

theorem alookup_map_entry {κ α β : Type} [DecidableEq κ] (f : α → β) (k : κ)
    (l : List (κ × α)) :
    alookup k (l.map fun p => (p.1, f p.2)) = (alookup k l).map f := by
  induction l with
  | nil => rfl
  | cons p rest ih => by_cases hp : p.1 = k <;> simp [alookup, hp, ih]

namespace SFU

theorem indexOfAux_neg_or (sub : List Char) :
    ∀ (s : List Char) (i : Nat),
      indexOfAux sub s i = -1 ∨ ∃ n, indexOfAux sub s i = Int.ofNat n := by
  intro s
  induction s with
  | nil =>
    intro i
    unfold indexOfAux
    split
    · exact Or.inr ⟨i, rfl⟩
    · exact Or.inl rfl
  | cons c rest ih =>
    intro i
    unfold indexOfAux
    by_cases hl : sub.length > (c :: rest).length
    · rw [if_pos hl]; exact Or.inl rfl
    · rw [if_neg hl]
      by_cases ht : (c :: rest).take sub.length = sub
      · rw [if_pos ht]; exact Or.inr ⟨i, rfl⟩
      · rw [if_neg ht]; exact ih (i + 1)

theorem not_infix_of_contains_false {s A : String} (hA : A ≠ "")
    (h : containsPublisherID s A = false) : ¬ A.data <:+: s.data := by
  intro hinf
  have hs : s ≠ "" := by
    intro hse
    subst hse
    exact hA ((string_data_nil_iff A).1 (List.infix_nil.1 hinf))
  have htrue := (containsPublisherID_iff s A).2 ⟨hs, hA, hinf⟩
  rw [h] at htrue
  exact Bool.false_ne_true htrue

/-- Claim C9 — substring-based cleanup matching. (1) containsPublisherID s p
is true iff both strings are non-empty and p occurs as a contiguous substring
of s. (2) indexOf matches the reference substring search: it returns 0 on the
empty pattern, and otherwise either -1 with no occurrence existing, or the
index of the first occurrence. (3) Consequently cleanup falsely matches across
distinct users: user "u"'s disconnect cleanup removes the sender carrying user
"uv"'s forwarded track t-uv, since "u" is a substring of "t-uv". -/
theorem claim9_substring_matching :
    (∀ s p : String, containsPublisherID s p = true ↔
      s ≠ "" ∧ p ≠ "" ∧ p.data <:+: s.data) ∧
    (∀ s sub : List Char,
      (sub = [] ∧ indexOf s sub = 0) ∨
      (indexOf s sub = -1 ∧ ¬ sub <:+: s) ∨
      (∃ n, indexOf s sub = Int.ofNat n ∧ sub <+: s.drop n ∧
        ∀ m, m < n → ¬ sub <+: s.drop m)) ∧
    (("u" : String) ≠ "uv" ∧ trackUV.trackId = "t-uv" ∧
      containsPublisherID trackUV.trackId "u" = true ∧
      ctxW.senders = [{ track := some trackUV }] ∧
      handleDisconnect [("u", ctxPubA), ("w", ctxW)] "u" =
        [("w", { ctxW with senders := [] })]) := by
  refine ⟨containsPublisherID_iff, ?_, by decide, rfl, by decide, by decide, by decide⟩
  intro s sub
  by_cases hsub : sub = []
  · exact Or.inl ⟨hsub, by simp [indexOf, hsub]⟩
  · right
    rcases indexOfAux_neg_or sub s 0 with hneg | ⟨n, hn⟩
    · refine Or.inl ⟨by simp [indexOf, hsub, hneg], ?_⟩
      intro hinf
      have hge := (indexOf_nonneg_iff s sub).2 hinf
      rw [show indexOf s sub = -1 by simp [indexOf, hsub, hneg]] at hge
      norm_num at hge
    · have hidx : indexOf s sub = Int.ofNat n := by simp [indexOf, hsub, hn]
      obtain ⟨h1, h2⟩ := indexOf_min s sub hsub n hidx
      exact Or.inr ⟨n, hidx, h1, h2⟩

/-- Claim C5 counterexample: the claim quantifies over every SFU state, but
handleDisconnect returns early when the disconnecting user has no PeerContext
in the map, without scanning the remaining peers. In the state where only peer
"b" is present and holds a sender for departed user "a"'s forwarded track
t-a, OnDisconnect("a") leaves the map — including that stale sender, whose
track identity embeds "a" — completely unchanged. -/
theorem claim5_counterexample :
    handleDisconnect [("b", ctxStaleB)] "a" = [("b", ctxStaleB)] ∧
    alookup "a" [(("b" : String), ctxStaleB)] = none ∧
    ∃ sd t, sd ∈ ctxStaleB.senders ∧ sd.track = some t ∧
      containsPublisherID t.trackId "a" = true ∧
      ("a" : String).data <:+: t.trackId.data :=
  ⟨by decide, by decide,
   ⟨{ track := some { trackId := "t-a", streamId := "s-a" } },
    { trackId := "t-a", streamId := "s-a" }, by decide, rfl, by decide, by decide⟩⟩

/-- Claim C5 (amended) — cleanup completeness on disconnect of a user whose
PeerContext is present: after handleDisconnect for a non-empty userID A whose
context is in the global map, A's context is absent from the map and no
remaining peer retains a sender whose forwarded-track identity (track ID or
stream ID) contains A as a substring. (The early return on a missing context,
exhibited by the counterexample, is the only failing case.) -/
theorem alookup_removeAll (P k : String) (l : PeerMap) :
    alookup k (removeAllPublisherTracks P l) =
      (alookup k l).map fun c => { c with senders := c.senders.filter (keepSender P) } := by
  induction l with
  | nil => rfl
  | cons p rest ih =>
    simp only [removeAllPublisherTracks, List.map_cons, alookup] at ih ⊢
    by_cases hp : p.1 = k
    · simp [hp]
    · simp [hp, ih]

theorem claim5_cleanup (peers : PeerMap) (A : String) (ctx : PeerContext)
    (hA : A ≠ "") (hctx : alookup A peers = some ctx) :
    alookup A (handleDisconnect peers A) = none ∧
    ∀ p ∈ handleDisconnect peers A, ∀ sd ∈ p.2.senders, ∀ t, sd.track = some t →
      ¬ A.data <:+: t.trackId.data ∧ ¬ A.data <:+: t.streamId.data := by
  simp only [handleDisconnect, hctx]
  constructor
  · rw [alookup_removeAll, alookup_aerase_self]
    rfl
  · intro p hp sd hsd t htr
    simp only [removeAllPublisherTracks] at hp
    obtain ⟨q, hq, hqp⟩ := List.mem_map.1 hp
    rw [← hqp] at hsd
    have hkeep : keepSender A sd = true := (List.mem_filter.1 hsd).2
    simp only [keepSender, htr, Bool.not_eq_true', Bool.or_eq_false_iff] at hkeep
    exact ⟨not_infix_of_contains_false hA hkeep.1, not_infix_of_contains_false hA hkeep.2⟩

/-- Witness for claim C5 (amended): disconnecting user "a", whose context is
present alongside peer "b" that holds a sender for "a"'s track, removes "a"
from the map and strips the matching sender from "b". -/
theorem claim5_witness :
    ("a" : String) ≠ "" ∧
    alookup "a" [(("a" : String), ctxPubA), ("b", ctxStaleB)] = some ctxPubA ∧
    (alookup "a" (handleDisconnect [("a", ctxPubA), ("b", ctxStaleB)] "a") = none ∧
      ∀ p ∈ handleDisconnect [(("a" : String), ctxPubA), ("b", ctxStaleB)] "a",
        ∀ sd ∈ p.2.senders, ∀ t, sd.track = some t →
          ¬ ("a" : String).data <:+: t.trackId.data ∧
          ¬ ("a" : String).data <:+: t.streamId.data) :=
  ⟨by decide, by decide,
   claim5_cleanup [("a", ctxPubA), ("b", ctxStaleB)] "a" ctxPubA (by decide) (by decide)⟩

theorem mem_catchup {failSet : List (String × String)} {peers : PeerMap}
    {userId projectId A : String} {ctxA : PeerContext} {t : Track}
    (hmem : (A, ctxA) ∈ peers) (hAB : ¬ A = userId) (hproj : ctxA.projectID = projectId)
    (ht : t ∈ ctxA.tracks) (hfail : addTrackFails failSet userId t.trackId = false) :
    t ∈ (catchupSenders failSet peers userId projectId).filterMap
      (fun sd => sd.track) := by
  refine List.mem_filterMap.2 ⟨{ track := some t }, ?_, rfl⟩
  unfold catchupSenders
  refine List.mem_flatten.2 ⟨ctxA.tracks.filterMap fun tr =>
    if addTrackFails failSet userId tr.trackId then none
    else some { track := some tr }, ?_, ?_⟩
  · refine List.mem_map.2 ⟨(A, ctxA), hmem, ?_⟩
    simp [hAB, hproj]
  · exact List.mem_filterMap.2 ⟨t, ht, by simp [hfail]⟩

/-- Claim C4 — track fan-out completeness and ordering. (1) For a connect
request by user B into a project where another user A already has a published
track t whose AddTrack on B's connection does not fail, the handler's outputs
are exactly prior-close notices followed by B's SDP offer, and t appears in
the track list the offer was created over (the catch-up happens before the
offer is created, so the offer reflects it). (2) When A publishes a track
while other peers of the same project are present, every such peer whose
AddTrack does not fail receives the new forwarded sender — each peer is
handled independently, so one peer's failure never aborts fan-out to the
rest. -/
theorem claim4_track_fanout :
    (∀ (failSet : List (String × String)) (peers : PeerMap) (B pid A : String)
        (ctxA : PeerContext) (t : Track),
      ¬ A = B → alookup A peers = some ctxA → ctxA.projectID = pid →
      t ∈ ctxA.tracks → addTrackFails failSet B t.trackId = false →
      ∃ tlist pre, (handleConnectRequest failSet peers B pid).2 =
          pre ++ [SOut.offer B tlist] ∧ t ∈ tlist ∧
        ∀ x ∈ pre, ∃ u, x = SOut.closedOld u) ∧
    (∀ (failSet : List (String × String)) (peers : PeerMap) (A pid rid rsid : String)
        (p : String × PeerContext),
      p ∈ peers → ¬ p.1 = A → p.2.projectID = pid →
      addTrackFails failSet p.1 (rid ++ "-" ++ A) = false →
      (p.1, { p.2 with senders := p.2.senders ++
          [{ track := some { trackId := rid ++ "-" ++ A,
                             streamId := rsid ++ "-" ++ A } }] }) ∈
        onTrack failSet peers A pid rid rsid) := by
  constructor
  · intro failSet peers B pid A ctxA t hAB hA hproj ht hfail
    have hmem : (A, ctxA) ∈ peers := alookup_mem hA
    rcases hB : alookup B peers with _ | old
    · have hmem2 : (A, ctxA) ∈ aset B
          ({ projectID := pid, tracks := [], senders := [], pcClosed := false } :
            PeerContext) peers :=
        (mem_aset_of_ne _ hAB _).2 hmem
      refine ⟨_, [], ?_, mem_catchup hmem2 hAB hproj ht hfail,
        by intro x hx; simp at hx⟩
      simp [handleConnectRequest, hB]
    · have hmem2 : (A, ctxA) ∈ aset B
          ({ projectID := pid, tracks := [], senders := [], pcClosed := false } :
            PeerContext) (aerase B peers) :=
        (mem_aset_of_ne _ hAB _).2 (mem_aerase_of_mem hAB hmem)
      refine ⟨_, [SOut.closedOld B], ?_, mem_catchup hmem2 hAB hproj ht hfail, ?_⟩
      · simp [handleConnectRequest, hB]
      · intro x hx
        rw [List.mem_singleton] at hx
        exact ⟨B, hx⟩
  · intro failSet peers A pid rid rsid p hp hpA hproj hfail
    simp only [onTrack]
    rcases hA : alookup A peers with _ | pub
    · refine List.mem_map.2 ⟨p, hp, ?_⟩
      simp [hpA, hproj, hfail]
    · refine List.mem_map.2 ⟨p, (mem_aset_of_ne _ hpA _).2 hp, ?_⟩
      simp [hpA, hproj, hfail]

/-- Witness for claim C4: (1) user "w" connects into project p where "uv" has
published trackUV; the offer's track list contains trackUV. (2) user "uv"
publishes remote track t2/s2 while peer "w" is present; "w"'s context gains
the forwarded sender. -/
theorem claim4_witness :
    ((¬ ("uv" : String) = "w") ∧
      alookup "uv" [(("uv" : String), ctxUV)] = some ctxUV ∧
      ctxUV.projectID = "p" ∧ trackUV ∈ ctxUV.tracks ∧
      addTrackFails [] "w" trackUV.trackId = false ∧
      ∃ tlist pre, (handleConnectRequest [] [("uv", ctxUV)] "w" "p").2 =
          pre ++ [SOut.offer "w" tlist] ∧ trackUV ∈ tlist ∧
        ∀ x ∈ pre, ∃ u, x = SOut.closedOld u) ∧
    ((("w" : String), ctxW) ∈ [(("uv" : String), ctxUV), ("w", ctxW)] ∧
      (¬ ("w" : String) = "uv") ∧ ctxW.projectID = "p" ∧
      addTrackFails [] "w" ("t2" ++ "-" ++ "uv") = false ∧
      ("w", { ctxW with senders := ctxW.senders ++
          [{ track := some { trackId := "t2" ++ "-" ++ "uv",
                             streamId := "s2" ++ "-" ++ "uv" } }] }) ∈
        onTrack [] [("uv", ctxUV), ("w", ctxW)] "uv" "p" "t2" "s2") :=
  ⟨⟨by decide, by decide, rfl, by decide, rfl,
    claim4_track_fanout.1 [] [("uv", ctxUV)] "w" "p" "uv" ctxUV trackUV
      (by decide) (by decide) rfl (by decide) rfl⟩,
   ⟨by decide, by decide, rfl, rfl,
    claim4_track_fanout.2 [] [("uv", ctxUV), ("w", ctxW)] "uv" "p" "t2" "s2"
      ("w", ctxW) (by decide) (by decide) rfl rfl⟩⟩

end SFU

namespace WS

theorem qBump_closed_pres (cid cid2 : Nat) (qs : List (Nat × SendQ))
    (h : ∃ q, alookup cid qs = some q ∧ q.closed = true) :
    ∃ q, alookup cid (qBump cid2 qs) = some q ∧ q.closed = true := by
  obtain ⟨q, hq, hc⟩ := h
  unfold qBump
  rcases hl : alookup cid2 qs with _ | q2
  · exact ⟨q, hq, hc⟩
  · by_cases hcc : cid = cid2
    · subst hcc
      rw [hq] at hl
      have hqq := Option.some.inj hl
      subst hqq
      exact ⟨{ q with pending := q.pending + 1 }, alookup_aset_self .., hc⟩
    · rw [alookup_aset_ne hcc]
      exact ⟨q, hq, hc⟩

theorem presenceFold_closed (cid : Nat) (us : List (String × String))
    (room : List (String × Client)) :
    ∀ (s : HubState) (outs : List Out),
      (∃ q, alookup cid s.queues = some q ∧ q.closed = true) →
      ∃ q, alookup cid (room.foldl (presenceStepOne us) (s, outs)).1.queues = some q ∧
        q.closed = true := by
  induction room with
  | nil => intro s outs h; exact h
  | cons p rest ih =>
    intro s outs h
    rw [List.foldl_cons]
    by_cases hq : qFull p.2.cid s.queues = true
    · rw [show presenceStepOne us (s, outs) p = (s, outs ++ [Out.presenceDrop p.1 p.2.cid]) by
        unfold presenceStepOne; simp [hq]]
      exact ih s _ h
    · rw [show presenceStepOne us (s, outs) p =
          ({ s with queues := qBump p.2.cid s.queues },
            outs ++ [Out.send p.1 p.2.cid (WireMsg.presence us) Mode.tryPresence]) by
        unfold presenceStepOne; simp [hq]]
      exact ih _ _ (qBump_closed_pres cid p.2.cid s.queues h)

theorem broadcastPresence_closed (cid : Nat) (s : HubState) (pid : String)
    (h : ∃ q, alookup cid s.queues = some q ∧ q.closed = true) :
    ∃ q, alookup cid (broadcastPresence s pid).1.queues = some q ∧ q.closed = true := by
  unfold broadcastPresence
  split
  · exact h
  · exact presenceFold_closed cid _ _ s [] h

theorem registerStep_replace {s : HubState} {c old : Client}
    (h : ¬ c.projectID = sfuChannel) (hold : alookup c.userID s.userMap = some old) :
    ∃ s2, registerStep s c = ((broadcastPresence s2 c.projectID).1,
        Out.closeQueue old.cid :: (broadcastPresence s2 c.projectID).2) ∧
      s2.userMap = aset c.userID c s.userMap ∧
      s2.clients = aset c.projectID
        (aset c.userID c ((alookup c.projectID s.clients).getD [])) s.clients ∧
      s2.queues = qClose old.cid (qEnsure c s.queues) := by
  refine ⟨{ clients :=
              aset c.projectID
                (aset c.userID c ((alookup c.projectID s.clients).getD [])) s.clients,
            userMap := aset c.userID c s.userMap, sfuClient := s.sfuClient,
            iceBuffers := s.iceBuffers,
            queues := qClose old.cid (qEnsure c s.queues) },
    ?_, rfl, rfl, rfl⟩
  simp [registerStep, h, hold]

/-- Claim C2 counterexample: user "u" registers in project p1 and then
re-registers (as a new Client) in project p2. The prior entity cP1 is still
reachable from the Hub's Clients map afterward — the p1 room still maps "u"
to it — refuting the claim that the prior entity is no longer reachable from
any Hub map. -/
theorem claim2_counterexample :
    cP1.userID = cP2.userID ∧ ¬ cP1 = cP2 ∧
    alookup "u" (hubRun initHub [Event.register cP1, Event.register cP2]).1.userMap =
      some cP2 ∧
    ∃ room,
      alookup "p1" (hubRun initHub [Event.register cP1, Event.register cP2]).1.clients =
        some room ∧ alookup "u" room = some cP1 :=
  ⟨rfl, by decide, by decide, ⟨[("u", cP1)], by decide, by decide⟩⟩

/-- Claim C2 (amended) — at most one live session per userID, per map. Hub
half: registering a second Client for a userID already in UserMap closes the
prior client's queue (the close output is emitted and the queue is marked
closed in the final state), and afterwards UserMap and the new project's room
both map the userID to the new client; the prior entity may however remain
reachable in a different project's stale room entry (see the counterexample),
so eviction is per-map rather than global. SFU half: a connect-request for a
userID with an existing PeerContext emits the close of the prior peer
connection and installs a fresh context for the new project as the only
binding of that userID in the map. -/
theorem claim2_single_session :
    (∀ (s : HubState) (c old : Client), ¬ c.projectID = sfuChannel →
      alookup c.userID s.userMap = some old →
      (∃ q, alookup old.cid (hubStep s (Event.register c)).1.queues = some q ∧
        q.closed = true) ∧
      Out.closeQueue old.cid ∈ (hubStep s (Event.register c)).2 ∧
      alookup c.userID (hubStep s (Event.register c)).1.userMap = some c ∧
      ∃ room, alookup c.projectID (hubStep s (Event.register c)).1.clients = some room ∧
        alookup c.userID room = some c) ∧
    (∀ (failSet : List (String × String)) (peers : SFU.PeerMap) (uid pid : String)
        (ctx : SFU.PeerContext),
      alookup uid peers = some ctx →
      SFU.SOut.closedOld uid ∈ (SFU.handleConnectRequest failSet peers uid pid).2 ∧
      ∃ newCtx,
        alookup uid (SFU.handleConnectRequest failSet peers uid pid).1 = some newCtx ∧
        newCtx.projectID = pid ∧ newCtx.tracks = [] ∧ newCtx.pcClosed = false ∧
        ∀ v, (uid, v) ∈ (SFU.handleConnectRequest failSet peers uid pid).1 →
          v = newCtx) := by
  constructor
  · intro s c old h hold
    obtain ⟨s2, heq, hum, hcl, hqs⟩ := registerStep_replace h hold
    rw [show hubStep s (Event.register c) = registerStep s c from rfl, heq]
    dsimp only
    refine ⟨?_, List.mem_cons_self _ _, ?_, ?_⟩
    · apply broadcastPresence_closed
      rw [hqs]
      exact qClose_closed old.cid (qEnsure c s.queues)
    · rw [broadcastPresence_userMap, hum]
      exact alookup_aset_self ..
    · refine ⟨aset c.userID c ((alookup c.projectID s.clients).getD []), ?_,
        alookup_aset_self ..⟩
      rw [broadcastPresence_clients, hcl]
      exact alookup_aset_self ..
  · intro failSet peers uid pid ctx hctx
    constructor
    · simp [SFU.handleConnectRequest, hctx]
    · simp only [SFU.handleConnectRequest, hctx]
      exact ⟨_, alookup_aset_self .., rfl, rfl, rfl, fun v hv => mem_aset_self hv⟩

/-- Witness for claim C2 (amended): user "u" (client cU, project p) is
registered; a second client cP2 for the same user registers under project p2,
closing cU's queue and rebinding both maps; and on the SFU, user "uv" with an
existing context issues a connect request into project p. -/
theorem claim2_witness :
    ((¬ cP2.projectID = sfuChannel) ∧ alookup cP2.userID sWitU.userMap = some cU ∧
      ((∃ q, alookup cU.cid (hubStep sWitU (Event.register cP2)).1.queues = some q ∧
          q.closed = true) ∧
        Out.closeQueue cU.cid ∈ (hubStep sWitU (Event.register cP2)).2 ∧
        alookup cP2.userID (hubStep sWitU (Event.register cP2)).1.userMap = some cP2 ∧
        ∃ room,
          alookup cP2.projectID (hubStep sWitU (Event.register cP2)).1.clients =
            some room ∧ alookup cP2.userID room = some cP2)) ∧
    (alookup "uv" [(("uv" : String), SFU.ctxUV)] = some SFU.ctxUV ∧
      (SFU.SOut.closedOld "uv" ∈
          (SFU.handleConnectRequest [] [("uv", SFU.ctxUV)] "uv" "p").2 ∧
        ∃ newCtx,
          alookup "uv" (SFU.handleConnectRequest [] [("uv", SFU.ctxUV)] "uv" "p").1 =
            some newCtx ∧
          newCtx.projectID = "p" ∧ newCtx.tracks = [] ∧ newCtx.pcClosed = false ∧
          ∀ v, (("uv" : String), v) ∈
              (SFU.handleConnectRequest [] [("uv", SFU.ctxUV)] "uv" "p").1 →
            v = newCtx)) :=
  ⟨⟨by decide, by decide,
    claim2_single_session.1 sWitU cP2 cU (by decide) (by decide)⟩,
   ⟨by decide,
    claim2_single_session.2 [] [("uv", SFU.ctxUV)] "uv" "p" SFU.ctxUV (by decide)⟩⟩

end WS

end Meetings
